import Mathlib

/-!
Verification of the pecco-lang compiler front end (lexer, parser fragment,
operator resolver, symbol-table builder, type checker, code generator) by a
shallow embedding in Lean.

Modelling conventions:
* C++ `std::unique_ptr<Expr>` is nullable; the null pointer is modelled by the
  dedicated constructor `Expr.null`.
* Error vectors are modelled as lists of structured `(message, line, column)`
  records mirroring the arguments of each `error(...)` call site; the C++ code
  renders each record into a single string (`"at L:C: msg"`) for display.
  Embedded message texts follow the C++ texts except that the C++ code wraps
  operator symbols in single quotes, which are omitted here.
* `std::map` keyed containers whose per-key buckets are insertion-ordered
  vectors are modelled as flat insertion-ordered lists; `find` takes the first
  matching element, `findAll` filters, exactly as the bucket semantics.
* Machine integers (`int` precedence values) are modelled as `Int`; `size_t`
  subtraction wrap-around in `operands.size() - 1` is modelled by the
  equivalent overflow-free comparison (noted at the definition).
-/

namespace Pecco

/-- Source location of a token or AST node: 1-based line, start column and end
column, 0 meaning unknown (C++ `struct SourceLocation`). -/
structure SourceLocation where
  line : Nat := 0
  column : Nat := 0
  endColumn : Nat := 0
  deriving Repr, DecidableEq, Inhabited

/-- Operator position tag (C++ `enum class OpPosition`). -/
inductive OpPosition where
  | Prefix
  | Infix
  | Postfix
  deriving Repr, DecidableEq, Inhabited

/-- Infix associativity (C++ `enum class Associativity`: only Left and Right
exist in the implementation). -/
inductive Associativity where
  | Left
  | Right
  deriving Repr, DecidableEq, Inhabited

/-- Symbol origin marker (C++ `enum class SymbolOrigin`). -/
inductive SymbolOrigin where
  | User
  | Prelude
  deriving Repr, DecidableEq, Inhabited

/-- Parameter/return type signature of an operator (C++
`struct OperatorSignature`). -/
structure OperatorSignature where
  paramTypes : List String
  returnType : String
  deriving Repr, DecidableEq, Inhabited

/-- One operator table entry (C++ `struct OperatorInfo`). -/
structure OperatorInfo where
  op : String
  position : OpPosition
  precedence : Int
  assoc : Associativity
  signature : OperatorSignature
  origin : SymbolOrigin
  deriving Repr, DecidableEq, Inhabited

/-- One function table entry (C++ `struct FunctionSignature`). -/
structure FunctionSignature where
  name : String
  paramTypes : List String
  returnType : String
  isDeclarationOnly : Bool
  origin : SymbolOrigin
  deriving Repr, DecidableEq, Inhabited

/-- Global symbol table: functions and operators (C++ `class SymbolTable`,
whose `OperatorTable` keys `(symbol, position)` to an insertion-ordered
overload vector; modelled as one insertion-ordered list). -/
structure SymbolTable where
  functions : List FunctionSignature
  operators : List OperatorInfo
  deriving Repr, DecidableEq, Inhabited

/-- `OperatorTable::add_operator`: appends the overload to its buckets list. -/
def SymbolTable.addOperator (t : SymbolTable) (info : OperatorInfo) : SymbolTable :=
  { t with operators := t.operators ++ [info] }

/-- `SymbolTable::add_function`. -/
def SymbolTable.addFunction (t : SymbolTable) (sig : FunctionSignature) : SymbolTable :=
  { t with functions := t.functions ++ [sig] }

/-- `OperatorTable::find_operator`: the first overload registered under the
`(symbol, position)` key, if any. -/
def SymbolTable.findOperator (t : SymbolTable) (op : String) (pos : OpPosition) :
    Option OperatorInfo :=
  t.operators.find? (fun i => decide (i.op = op ∧ i.position = pos))

/-- `OperatorTable::find_operators`: all overloads under the key, in
registration order. -/
def SymbolTable.findOperators (t : SymbolTable) (op : String) (pos : OpPosition) :
    List OperatorInfo :=
  t.operators.filter (fun i => decide (i.op = op ∧ i.position = pos))

/-- `SymbolTable::find_functions`: all overloads of a function name, in
registration order. -/
def SymbolTable.findFunctions (t : SymbolTable) (name : String) :
    List FunctionSignature :=
  t.functions.filter (fun f => decide (f.name = name))

/-- A named type annotation in the AST (C++ `struct Type`, kind `Named`). -/
structure TypeAnn where
  name : String
  loc : SourceLocation
  deriving Repr, DecidableEq, Inhabited

/-- A declared parameter (C++ `struct Parameter`: name, optional type,
source location). -/
structure Param where
  name : String
  type : Option TypeAnn
  loc : SourceLocation
  deriving Repr, DecidableEq, Inhabited

mutual

/-- Expression nodes (C++ `struct Expr` hierarchy). `null` models the C++
null `ExprPtr`. -/
inductive Expr where
  | null
  | intLit (value : String) (loc : SourceLocation)
  | floatLit (value : String) (loc : SourceLocation)
  | stringLit (value : String) (loc : SourceLocation)
  | boolLit (value : Bool) (loc : SourceLocation)
  | ident (name : String) (loc : SourceLocation)
  | binary (op : String) (left right : Expr) (loc : SourceLocation)
  | unary (op : String) (operand : Expr) (position : OpPosition) (loc : SourceLocation)
  | opSeq (items : List OpSeqItem) (loc : SourceLocation)
  | call (callee : Expr) (args : List Expr) (loc : SourceLocation)

/-- One item of an operator sequence (C++ `struct OpSeqItem`): an operator
symbol with its token span, or an operand expression. -/
inductive OpSeqItem where
  | operatorItem (op : String) (loc : SourceLocation)
  | operandItem (operand : Expr) (loc : SourceLocation)

end

instance : Inhabited Expr := ⟨Expr.null⟩

/-- Statement nodes (C++ `struct Stmt` hierarchy). -/
inductive Stmt where
  | letStmt (name : String) (type : Option TypeAnn) (init : Expr) (loc : SourceLocation)
  | funcStmt (name : String) (params : List Param) (returnType : Option TypeAnn)
      (body : Option Stmt) (loc : SourceLocation)
  | operatorDecl (op : String) (position : OpPosition) (params : List Param)
      (returnType : Option TypeAnn) (precedence : Int) (assoc : Associativity)
      (body : Option Stmt) (loc : SourceLocation)
  | ifStmt (condition : Expr) (thenBranch : Stmt) (elseBranch : Option Stmt)
      (loc : SourceLocation)
  | returnStmt (value : Option Expr) (loc : SourceLocation)
  | whileStmt (condition : Expr) (body : Stmt) (loc : SourceLocation)
  | exprStmt (e : Expr) (loc : SourceLocation)
  | block (stmts : List Stmt) (loc : SourceLocation)

/-- One structured resolver diagnostic: the `(message, line, column)`
arguments of `OperatorResolver::error`. -/
structure ResolveError where
  message : String
  line : Nat
  column : Nat
  deriving Repr, DecidableEq, Inhabited

/-- The C++ enum index of an expression kind, used in the clone error
message (`std::to_string(static_cast<int>(operand->kind))`). `null` never
reaches this point in C++ (dereferencing it would crash); it is mapped to
the same default error path here. -/
def exprKindIndex : Expr → String
  | .null => "null"
  | .intLit _ _ => "0"
  | .floatLit _ _ => "1"
  | .stringLit _ _ => "2"
  | .boolLit _ _ => "3"
  | .ident _ _ => "4"
  | .binary _ _ _ _ => "5"
  | .unary _ _ _ _ => "6"
  | .opSeq _ _ => "7"
  | .call _ _ _ => "8"

/-- Record of one infix operator collected by step 1 of
`OperatorResolver::resolve_operator_seq` (the parallel vectors `infix_ops`,
`infix_precs`, `infix_assocs`, `infix_locs`). -/
structure InfixEntry where
  op : String
  precedence : Int
  assoc : Associativity
  loc : SourceLocation
  deriving Repr, DecidableEq, Inhabited

/-- The loop state of the split-point scan in
`OperatorResolver::build_infix_tree` (`lowest_prec`, `split_pos`, `found`,
`lowest_prec_assoc`). -/
structure ScanState where
  lowestPrec : Int
  splitPos : Nat
  found : Bool
  lowestAssoc : Associativity
  deriving Repr, DecidableEq, Inhabited

/-- Spelling of an associativity inside the mixed-associativity message. -/
def assocName : Associativity → String
  | .Left => "assoc_left"
  | .Right => "assoc_right"

/-- The mixed-associativity message of `build_infix_tree` (operator symbols
unquoted, see the header). -/
def mixedAssocMessage (entries : List InfixEntry) (i splitPos : Nat)
    (lowestAssoc : Associativity) : String :=
  let e := entries.getD i default
  let s := entries.getD splitPos default
  "Mixed associativity at same precedence level: operator " ++ e.op ++ " (" ++
    assocName e.assoc ++ ") conflicts with operator " ++ s.op ++ " (" ++
    assocName lowestAssoc ++ ") at precedence " ++ toString e.precedence

/-- The split-point scan of `build_infix_tree`: walk the operators of the
range, tracking the lowest precedence seen; a precedence tie with a
disagreeing associativity aborts with the conflicting index and the state at
that moment. -/
def scanOps (entries : List InfixEntry) : Nat → Nat → ScanState →
    Except (Nat × ScanState) ScanState
  | _, 0, st => .ok st
  | i, n + 1, st =>
    if (entries.getD i default).precedence < st.lowestPrec then
      scanOps entries (i + 1) n
        ⟨(entries.getD i default).precedence, i, true, (entries.getD i default).assoc⟩
    else if (entries.getD i default).precedence = st.lowestPrec then
      if (entries.getD i default).assoc ≠ st.lowestAssoc then .error (i, st)
      else if (entries.getD i default).assoc = .Left then
        scanOps entries (i + 1) n { st with splitPos := i }
      else
        scanOps entries (i + 1) n st
    else
      scanOps entries (i + 1) n st

/-- On a successful scan the split position is either untouched or one of the
scanned indices. -/
theorem scanOps_ok_splitPos (entries : List InfixEntry) :
    ∀ (n i : Nat) (st st' : ScanState), scanOps entries i n st = .ok st' →
      (st'.found = st.found ∧ st'.splitPos = st.splitPos) ∨
      (i ≤ st'.splitPos ∧ st'.splitPos < i + n) := by
  intro n
  induction n with
  | zero =>
    intro i st st' h
    simp only [scanOps] at h
    cases h
    exact Or.inl ⟨rfl, rfl⟩
  | succ n ih =>
    intro i st st' h
    simp only [scanOps] at h
    split at h
    · rcases ih _ _ _ h with h' | h'
      · dsimp only at h'; right; omega
      · right; omega
    · split at h
      · split at h
        · cases h
        · split at h
          · rcases ih _ _ _ h with h' | h'
            · dsimp only at h'; right; omega
            · right; omega
          · rcases ih _ _ _ h with h' | h'
            · exact Or.inl h'
            · right; omega
      · rcases ih _ _ _ h with h' | h'
        · exact Or.inl h'
        · right; omega

/-- Step 2 of the operator resolver, `OperatorResolver::build_infix_tree`:
split the operand range on the scanned lowest-precedence operator and recurse.
`operands.getD _ .null` models the C++ direct vector indexing (always in
bounds on the paths the resolver reaches). -/
def buildInfixTree (operands : List Expr) (entries : List InfixEntry)
    (start fin : Nat) (errs : List ResolveError) :
    Option Expr × List ResolveError :=
  if start = fin then
    (some (operands.getD start .null), errs)
  else
    match hscan : scanOps entries start (fin - start) ⟨1000, start, false, .Left⟩ with
    | .error (i, st) =>
      let e := entries.getD i default
      (none, errs ++ [⟨mixedAssocMessage entries i st.splitPos st.lowestAssoc,
        e.loc.line, e.loc.column⟩])
    | .ok st =>
      if hf : st.found then
        match buildInfixTree operands entries start st.splitPos errs with
        | (none, errs1) => (none, errs1)
        | (some l, errs1) =>
          match buildInfixTree operands entries (st.splitPos + 1) fin errs1 with
          | (none, errs2) => (none, errs2)
          | (some r, errs2) =>
            let e := entries.getD st.splitPos default
            (some (.binary e.op l r e.loc), errs2)
      else
        (some (operands.getD start .null), errs)
termination_by fin - start
decreasing_by
  all_goals
    rcases scanOps_ok_splitPos entries (fin - start) start _ st hscan with ⟨hfd, _⟩ | ⟨h1, h2⟩
  · rw [hfd] at hf; cases hf
  · omega
  · rw [hfd] at hf; cases hf
  · omega

/-- Fold collected prefix operators onto an operand, innermost last: the C++
loop `for i = prefix_ops.size()-1 downto 0` wraps with `prefix_ops[i]` from
the inside out, so the head of the list ends outermost. Every created node
carries `seq->loc`. -/
def applyPrefixOps (ops : List String) (cur : Expr) (seqLoc : SourceLocation) : Expr :=
  match ops with
  | [] => cur
  | op :: rest => .unary op (applyPrefixOps rest cur seqLoc) .Prefix seqLoc

/-- Phase of the step-1 folding loop of `resolve_operator_seq`: collecting a
run of prefix operators, or holding a folded operand while consuming postfix
operators and looking for the next infix operator. -/
inductive SeqPhase where
  | readPrefix (pending : List String)
  | haveOperand (cur : Expr)

mutual

/-- `clone_operand` inside `resolve_operator_seq`: copies literal, identifier
and call operands, resolves nested operator sequences recursively, and reports
`Cannot clone` (at `seq->loc`) for every other kind, yielding null. A null
callee or argument produced by a failing nested clone is inserted into the
cloned call unchecked, exactly as the C++ `push_back` does. -/
def cloneOperand (tbl : SymbolTable) (seqLoc : SourceLocation) (e : Expr)
    (errs : List ResolveError) : Expr × List ResolveError :=
  match e with
  | .intLit v l => (.intLit v l, errs)
  | .floatLit v l => (.floatLit v l, errs)
  | .stringLit v l => (.stringLit v l, errs)
  | .boolLit v l => (.boolLit v l, errs)
  | .ident n l => (.ident n l, errs)
  | .opSeq items l =>
    match resolveOperatorSeq tbl items l errs with
    | (some r, errs1) => (r, errs1)
    | (none, errs1) => (.null, errs1)
  | .call callee args l =>
    let (c, errs1) := cloneOperand tbl seqLoc callee errs
    let (as, errs2) := cloneArgs tbl seqLoc args errs1
    (.call c as l, errs2)
  | other =>
    (.null, errs ++ [⟨"Cannot clone expression of type " ++ exprKindIndex other,
      seqLoc.line, seqLoc.column⟩])
termination_by (sizeOf e, 0)

/-- The argument-cloning loop of the `Call` case of `clone_operand`. -/
def cloneArgs (tbl : SymbolTable) (seqLoc : SourceLocation) (args : List Expr)
    (errs : List ResolveError) : List Expr × List ResolveError :=
  match args with
  | [] => ([], errs)
  | a :: rest =>
    let (a1, errs1) := cloneOperand tbl seqLoc a errs
    let (rest1, errs2) := cloneArgs tbl seqLoc rest errs1
    (a1 :: rest1, errs2)
termination_by (sizeOf args, 0)

/-- The step-1 while loop of `resolve_operator_seq`: greedily fold prefix and
postfix operators around each operand and collect the infix operators between
the folded operands. Prefix and postfix `UnaryExpr` nodes are created with
`seq->loc`. Returns the folded operand list and the infix entries, or null
with the recorded diagnostic. -/
def seqLoop (tbl : SymbolTable) (seqLoc : SourceLocation) (items : List OpSeqItem)
    (phase : SeqPhase) (operands : List Expr) (entries : List InfixEntry)
    (errs : List ResolveError) :
    Option (List Expr × List InfixEntry) × List ResolveError :=
  match items, phase with
  | [], .readPrefix [] => (some (operands, entries), errs)
  | [], .readPrefix (_ :: _) =>
    (none, errs ++ [⟨"Expected operand after prefix operators",
      seqLoc.line, seqLoc.column⟩])
  | [], .haveOperand cur => (some (operands ++ [cur], entries), errs)
  | .operatorItem op oloc :: rest, .readPrefix pending =>
    if (tbl.findOperator op .Prefix).isSome then
      seqLoop tbl seqLoc rest (.readPrefix (pending ++ [op])) operands entries errs
    else
      (none, errs ++ [⟨"Operator " ++ op ++ " cannot be used as prefix operator here",
        oloc.line, oloc.column⟩])
  | .operandItem e _ :: rest, .readPrefix pending =>
    match cloneOperand tbl seqLoc e errs with
    | (.null, errs1) => (none, errs1)
    | (cur, errs1) =>
      seqLoop tbl seqLoc rest (.haveOperand (applyPrefixOps pending cur seqLoc))
        operands entries errs1
  | .operatorItem op oloc :: rest, .haveOperand cur =>
    if (tbl.findOperator op .Postfix).isSome then
      seqLoop tbl seqLoc rest (.haveOperand (.unary op cur .Postfix seqLoc))
        operands entries errs
    else
      match tbl.findOperator op .Infix with
      | none =>
        (none, errs ++ [⟨"Operator " ++ op ++ " cannot be used as infix operator",
          oloc.line, oloc.column⟩])
      | some info =>
        seqLoop tbl seqLoc rest (.readPrefix []) (operands ++ [cur])
          (entries ++ [⟨op, info.precedence, info.assoc, oloc⟩]) errs
  | .operandItem _ _ :: _, .haveOperand _ =>
    (none, errs ++ [⟨"Expected infix operator between operands",
      seqLoc.line, seqLoc.column⟩])
termination_by (sizeOf items, 0)

/-- `OperatorResolver::resolve_operator_seq`: step-1 folding, the structure
balance check (the C++ `infix_ops.size() != operands.size() - 1` on `size_t`
is written overflow-free as `operands.length ≠ entries.length + 1`), the
single-operand shortcut, and step-2 infix tree construction. -/
def resolveOperatorSeq (tbl : SymbolTable) (items : List OpSeqItem)
    (seqLoc : SourceLocation) (errs : List ResolveError) :
    Option Expr × List ResolveError :=
  match seqLoop tbl seqLoc items (.readPrefix []) [] [] errs with
  | (none, errs1) => (none, errs1)
  | (some (operands, entries), errs1) =>
    if operands.length ≠ entries.length + 1 then
      (none, errs1 ++ [⟨"Operator sequence structure error: " ++
        toString entries.length ++ " infix operators for " ++
        toString operands.length ++ " operands", seqLoc.line, seqLoc.column⟩])
    else if operands.length = 1 then
      (some (operands.getD 0 .null), errs1)
    else
      buildInfixTree operands entries 0 (operands.length - 1) errs1
termination_by (sizeOf items, 1)

end

mutual

/-- `OperatorResolver::resolve_expr`: resolves an operator sequence, recurses
through call callees and arguments, and passes every other node through
unchanged (the C++ `default` case, which also covers already-resolved binary
and unary nodes). A null pointer resolves to null, which also models the C++
null guards at the call sites. -/
def resolveExpr (tbl : SymbolTable) (e : Expr) (errs : List ResolveError) :
    Expr × List ResolveError :=
  match e with
  | .opSeq items l =>
    match resolveOperatorSeq tbl items l errs with
    | (some r, errs1) => (r, errs1)
    | (none, errs1) => (.null, errs1)
  | .call callee args l =>
    let (c, errs1) := resolveExpr tbl callee errs
    let (as, errs2) := resolveExprList tbl args errs1
    (.call c as l, errs2)
  | other => (other, errs)

/-- The argument loop of the `Call` case of `resolve_expr`. -/
def resolveExprList (tbl : SymbolTable) (args : List Expr)
    (errs : List ResolveError) : List Expr × List ResolveError :=
  match args with
  | [] => ([], errs)
  | a :: rest =>
    let (a1, errs1) := resolveExpr tbl a errs
    let (rest1, errs2) := resolveExprList tbl rest errs1
    (a1 :: rest1, errs2)

end

mutual

/-- `OperatorResolver::resolve_stmt`: rewrites every expression position of a
statement through `resolve_expr` and recurses through all nested statements. -/
def resolveStmt (tbl : SymbolTable) (s : Stmt) (errs : List ResolveError) :
    Stmt × List ResolveError :=
  match s with
  | .letStmt n t init l =>
    let (init1, errs1) := resolveExpr tbl init errs
    (.letStmt n t init1 l, errs1)
  | .funcStmt n ps rt body l =>
    match body with
    | none => (.funcStmt n ps rt none l, errs)
    | some b =>
      let (b1, errs1) := resolveStmt tbl b errs
      (.funcStmt n ps rt (some b1) l, errs1)
  | .operatorDecl op pos ps rt prec assoc body l =>
    match body with
    | none => (.operatorDecl op pos ps rt prec assoc none l, errs)
    | some b =>
      let (b1, errs1) := resolveStmt tbl b errs
      (.operatorDecl op pos ps rt prec assoc (some b1) l, errs1)
  | .ifStmt cond thenB elseB l =>
    let (cond1, errs1) := resolveExpr tbl cond errs
    let (then1, errs2) := resolveStmt tbl thenB errs1
    match elseB with
    | none => (.ifStmt cond1 then1 none l, errs2)
    | some e =>
      let (else1, errs3) := resolveStmt tbl e errs2
      (.ifStmt cond1 then1 (some else1) l, errs3)
  | .returnStmt value l =>
    match value with
    | none => (.returnStmt none l, errs)
    | some v =>
      let (v1, errs1) := resolveExpr tbl v errs
      (.returnStmt (some v1) l, errs1)
  | .whileStmt cond body l =>
    let (cond1, errs1) := resolveExpr tbl cond errs
    let (body1, errs2) := resolveStmt tbl body errs1
    (.whileStmt cond1 body1 l, errs2)
  | .exprStmt e l =>
    let (e1, errs1) := resolveExpr tbl e errs
    (.exprStmt e1 l, errs1)
  | .block stmts l =>
    let (stmts1, errs1) := resolveStmtList tbl stmts errs
    (.block stmts1 l, errs1)

/-- The statement loop of the `Block` case of `resolve_stmt`. -/
def resolveStmtList (tbl : SymbolTable) (stmts : List Stmt)
    (errs : List ResolveError) : List Stmt × List ResolveError :=
  match stmts with
  | [] => ([], errs)
  | s :: rest =>
    let (s1, errs1) := resolveStmt tbl s errs
    let (rest1, errs2) := resolveStmtList tbl rest errs1
    (s1 :: rest1, errs2)

end

mutual

/-- An operator-sequence node occurs somewhere in the expression. -/
def exprHasOpSeq : Expr → Bool
  | .null => false
  | .intLit _ _ => false
  | .floatLit _ _ => false
  | .stringLit _ _ => false
  | .boolLit _ _ => false
  | .ident _ _ => false
  | .binary _ l r _ => exprHasOpSeq l || exprHasOpSeq r
  | .unary _ e _ _ => exprHasOpSeq e
  | .opSeq _ _ => true
  | .call c args _ => exprHasOpSeq c || exprListHasOpSeq args

/-- An operator-sequence node occurs in one of the expressions. -/
def exprListHasOpSeq : List Expr → Bool
  | [] => false
  | a :: rest => exprHasOpSeq a || exprListHasOpSeq rest

end

mutual

/-- The expression contains no binary and no unary application node (the shape
of every expression the parser emits: the parser only builds literals,
identifiers, calls and operator sequences). -/
def exprBinUnaryFree : Expr → Bool
  | .null => true
  | .intLit _ _ => true
  | .floatLit _ _ => true
  | .stringLit _ _ => true
  | .boolLit _ _ => true
  | .ident _ _ => true
  | .binary _ _ _ _ => false
  | .unary _ _ _ _ => false
  | .opSeq items _ => itemsBinUnaryFree items
  | .call c args _ => exprBinUnaryFree c && exprListBinUnaryFree args

/-- No binary or unary node inside any operand of the item list. -/
def itemsBinUnaryFree : List OpSeqItem → Bool
  | [] => true
  | .operatorItem _ _ :: rest => itemsBinUnaryFree rest
  | .operandItem e _ :: rest => exprBinUnaryFree e && itemsBinUnaryFree rest

/-- No binary or unary node inside any of the expressions. -/
def exprListBinUnaryFree : List Expr → Bool
  | [] => true
  | a :: rest => exprBinUnaryFree a && exprListBinUnaryFree rest

end

mutual

/-- An operator-sequence node occurs in some expression position of the
statement. -/
def stmtHasOpSeq : Stmt → Bool
  | .letStmt _ _ init _ => exprHasOpSeq init
  | .funcStmt _ _ _ body _ => optStmtHasOpSeq body
  | .operatorDecl _ _ _ _ _ _ body _ => optStmtHasOpSeq body
  | .ifStmt cond thenB elseB _ =>
    exprHasOpSeq cond || stmtHasOpSeq thenB || optStmtHasOpSeq elseB
  | .returnStmt value _ =>
    match value with
    | none => false
    | some v => exprHasOpSeq v
  | .whileStmt cond body _ => exprHasOpSeq cond || stmtHasOpSeq body
  | .exprStmt e _ => exprHasOpSeq e
  | .block stmts _ => stmtListHasOpSeq stmts

/-- An operator-sequence node occurs in the optional statement. -/
def optStmtHasOpSeq : Option Stmt → Bool
  | none => false
  | some s => stmtHasOpSeq s

/-- An operator-sequence node occurs in one of the statements. -/
def stmtListHasOpSeq : List Stmt → Bool
  | [] => false
  | s :: rest => stmtHasOpSeq s || stmtListHasOpSeq rest

end

mutual

/-- No binary or unary node in any expression position of the statement. -/
def stmtBinUnaryFree : Stmt → Bool
  | .letStmt _ _ init _ => exprBinUnaryFree init
  | .funcStmt _ _ _ body _ => optStmtBinUnaryFree body
  | .operatorDecl _ _ _ _ _ _ body _ => optStmtBinUnaryFree body
  | .ifStmt cond thenB elseB _ =>
    exprBinUnaryFree cond && stmtBinUnaryFree thenB && optStmtBinUnaryFree elseB
  | .returnStmt value _ =>
    match value with
    | none => true
    | some v => exprBinUnaryFree v
  | .whileStmt cond body _ => exprBinUnaryFree cond && stmtBinUnaryFree body
  | .exprStmt e _ => exprBinUnaryFree e
  | .block stmts _ => stmtListBinUnaryFree stmts

/-- No binary or unary node in the optional statement. -/
def optStmtBinUnaryFree : Option Stmt → Bool
  | none => true
  | some s => stmtBinUnaryFree s

/-- No binary or unary node in any of the statements. -/
def stmtListBinUnaryFree : List Stmt → Bool
  | [] => true
  | s :: rest => stmtBinUnaryFree s && stmtListBinUnaryFree rest

end

/-- An infix prelude operator entry (built the way
`SymbolTableBuilder::process_operator_decl` builds `OperatorInfo` from a
declaration, with origin Prelude set by prelude loading). -/
def pInfix (op : String) (p : Int) (a : Associativity) (t1 t2 r : String) :
    OperatorInfo :=
  ⟨op, .Infix, p, a, ⟨[t1, t2], r⟩, .Prelude⟩

/-- A prefix prelude operator entry: the parser leaves precedence 0 and
associativity Left for non-infix declarations. -/
def pPrefix (op t r : String) : OperatorInfo :=
  ⟨op, .Prefix, 0, .Left, ⟨[t], r⟩, .Prelude⟩

/-- The operator declarations of `stdlib/prelude.pl`, in file order. The
comparison operators are declared there with `assoc none`; the implemented
`Associativity` enum has only Left and Right, and the parser records Left
whenever no `assoc_right` clause applies, so they are entered as Left. -/
def preludeOperators : List OperatorInfo :=
  [ pInfix "+" 70 .Left "i32" "i32" "i32",
    pInfix "+" 70 .Left "f64" "f64" "f64",
    pInfix "-" 70 .Left "i32" "i32" "i32",
    pInfix "-" 70 .Left "f64" "f64" "f64",
    pInfix "*" 80 .Left "i32" "i32" "i32",
    pInfix "*" 80 .Left "f64" "f64" "f64",
    pInfix "/" 80 .Left "i32" "i32" "i32",
    pInfix "/" 80 .Left "f64" "f64" "f64",
    pInfix "%" 80 .Left "i32" "i32" "i32",
    pInfix "**" 90 .Right "i32" "i32" "i32",
    pInfix "**" 90 .Right "f64" "f64" "f64",
    pPrefix "-" "i32" "i32",
    pPrefix "-" "f64" "f64",
    pPrefix "!" "bool" "bool",
    pInfix "&" 50 .Left "i32" "i32" "i32",
    pInfix "|" 40 .Left "i32" "i32" "i32",
    pInfix "^" 45 .Left "i32" "i32" "i32",
    pInfix "<<" 65 .Left "i32" "i32" "i32",
    pInfix ">>" 65 .Left "i32" "i32" "i32",
    pInfix "&&" 30 .Left "bool" "bool" "bool",
    pInfix "||" 20 .Left "bool" "bool" "bool",
    pInfix "==" 55 .Left "i32" "i32" "bool",
    pInfix "==" 55 .Left "f64" "f64" "bool",
    pInfix "==" 55 .Left "bool" "bool" "bool",
    pInfix "==" 55 .Left "string" "string" "bool",
    pInfix "!=" 55 .Left "i32" "i32" "bool",
    pInfix "!=" 55 .Left "f64" "f64" "bool",
    pInfix "!=" 55 .Left "bool" "bool" "bool",
    pInfix "!=" 55 .Left "string" "string" "bool",
    pInfix "<" 60 .Left "i32" "i32" "bool",
    pInfix "<" 60 .Left "f64" "f64" "bool",
    pInfix ">" 60 .Left "i32" "i32" "bool",
    pInfix ">" 60 .Left "f64" "f64" "bool",
    pInfix "<=" 60 .Left "i32" "i32" "bool",
    pInfix "<=" 60 .Left "f64" "f64" "bool",
    pInfix ">=" 60 .Left "i32" "i32" "bool",
    pInfix ">=" 60 .Left "f64" "f64" "bool" ]

/-- The symbol table after loading the prelude: the `write` function
declaration and the operator list above. -/
def preludeTable : SymbolTable :=
  ⟨[⟨"write", ["i32", "string", "i32"], "i32", true, .Prelude⟩],
   preludeOperators⟩

/-! ### Absence of operator-sequence nodes in resolver output -/

/-- Indexing a list of operator-sequence-free expressions (with the null
default) yields an operator-sequence-free expression. -/
theorem getD_noOpSeq (l : List Expr) (h : ∀ o ∈ l, exprHasOpSeq o = false)
    (i : Nat) : exprHasOpSeq (l.getD i .null) = false := by
  rw [List.getD_eq_getElem?_getD]
  cases h' : l[i]? with
  | none => simp [exprHasOpSeq]
  | some x => simpa using h x (List.getElem?_mem h')

/-- Prefix folding introduces no operator-sequence node. -/
theorem applyPrefixOps_noOpSeq (ops : List String) (cur : Expr)
    (seqLoc : SourceLocation) (h : exprHasOpSeq cur = false) :
    exprHasOpSeq (applyPrefixOps ops cur seqLoc) = false := by
  induction ops with
  | nil => simpa [applyPrefixOps]
  | cons op rest ih => simpa [applyPrefixOps, exprHasOpSeq]

/-- The infix tree built in step 2 contains no operator-sequence node when the
folded operands contain none. -/
theorem buildInfixTree_noOpSeq (operands : List Expr) (entries : List InfixEntry)
    (hop : ∀ o ∈ operands, exprHasOpSeq o = false) :
    ∀ (k start fin : Nat), fin - start = k →
      ∀ (errs : List ResolveError) (r : Expr) (errs1 : List ResolveError),
      buildInfixTree operands entries start fin errs = (some r, errs1) →
      exprHasOpSeq r = false := by
  intro k
  induction k using Nat.strong_induction_on with
  | _ k ih =>
    intro start fin hk errs r errs1 hb
    rw [buildInfixTree] at hb
    split at hb
    · cases hb
      exact getD_noOpSeq operands hop start
    · split at hb
      · cases hb
      · rename_i st hscan
        split at hb
        · rename_i hf
          have hrange : start ≤ st.splitPos ∧ st.splitPos < fin := by
            rcases scanOps_ok_splitPos entries (fin - start) start _ st hscan with
              ⟨hfd, _⟩ | ⟨hr1, hr2⟩
            · rw [hfd] at hf; cases hf
            · omega
          split at hb
          · cases hb
          · next l errsl hleft =>
            split at hb
            · cases hb
            · next rr errsr hright =>
              have hl : exprHasOpSeq l = false :=
                ih (st.splitPos - start) (by omega) start st.splitPos rfl
                  errs l errsl hleft
              have hr : exprHasOpSeq rr = false :=
                ih (fin - (st.splitPos + 1)) (by omega) (st.splitPos + 1) fin
                  rfl errsl rr errsr hright
              injection hb with hb1 hb2
              injection hb1 with hb1
              rw [← hb1]
              simp [exprHasOpSeq, hl, hr]
        · cases hb
          exact getD_noOpSeq operands hop start

/-- The step-1 loop state carries no operator-sequence node. -/
def phaseNoOpSeq : SeqPhase → Prop
  | .readPrefix _ => True
  | .haveOperand cur => exprHasOpSeq cur = false

/-- Joint invariant of the step-1 functions: cloned operands, cloned argument
lists, resolved operator sequences and the folded operands produced by the
loop contain no operator-sequence node. -/
theorem resolver_noOpSeq (tbl : SymbolTable) :
    (∀ (seqLoc : SourceLocation) (e : Expr) (errs : List ResolveError),
       exprHasOpSeq (cloneOperand tbl seqLoc e errs).1 = false) ∧
    (∀ (seqLoc : SourceLocation) (args : List Expr) (errs : List ResolveError),
       exprListHasOpSeq (cloneArgs tbl seqLoc args errs).1 = false) ∧
    (∀ (items : List OpSeqItem) (seqLoc : SourceLocation)
       (errs : List ResolveError) (r : Expr) (errs1 : List ResolveError),
       resolveOperatorSeq tbl items seqLoc errs = (some r, errs1) →
       exprHasOpSeq r = false) ∧
    (∀ (seqLoc : SourceLocation) (items : List OpSeqItem) (phase : SeqPhase)
       (operands : List Expr) (entries : List InfixEntry)
       (errs : List ResolveError),
       (∀ o ∈ operands, exprHasOpSeq o = false) → phaseNoOpSeq phase →
       ∀ (ops : List Expr) (ents : List InfixEntry) (errs1 : List ResolveError),
         seqLoop tbl seqLoc items phase operands entries errs =
           (some (ops, ents), errs1) →
         ∀ o ∈ ops, exprHasOpSeq o = false) := by
  apply cloneOperand.mutual_induct tbl
  case case1 => intro seqLoc errs v l; simp [cloneOperand, exprHasOpSeq]
  case case2 => intro seqLoc errs v l; simp [cloneOperand, exprHasOpSeq]
  case case3 => intro seqLoc errs v l; simp [cloneOperand, exprHasOpSeq]
  case case4 => intro seqLoc errs v l; simp [cloneOperand, exprHasOpSeq]
  case case5 => intro seqLoc errs n l; simp [cloneOperand, exprHasOpSeq]
  case case6 =>
    intro seqLoc errs items l r errs1 h ih
    simp only [cloneOperand, h]
    exact ih r errs1 h
  case case7 =>
    intro seqLoc errs items l errs1 h ih
    simp [cloneOperand, h, exprHasOpSeq]
  case case8 =>
    intro seqLoc errs callee args l c errs1 h1 as errs2 h2 ih1 ih2
    rw [h1] at ih1
    rw [h2] at ih2
    simp at ih1 ih2
    simp [cloneOperand, h1, h2, exprHasOpSeq, ih1, ih2]
  case case9 =>
    intro seqLoc errs other h1 h2 h3 h4 h5 h6 h7
    cases other with
    | null => simp [cloneOperand, exprHasOpSeq]
    | intLit v l => exact absurd rfl (h1 v l)
    | floatLit v l => exact absurd rfl (h2 v l)
    | stringLit v l => exact absurd rfl (h3 v l)
    | boolLit v l => exact absurd rfl (h4 v l)
    | ident n l => exact absurd rfl (h5 n l)
    | binary op a b l => simp [cloneOperand, exprHasOpSeq]
    | unary op a p l => simp [cloneOperand, exprHasOpSeq]
    | opSeq items l => exact absurd rfl (h6 items l)
    | call callee args l => exact absurd rfl (h7 callee args l)
  case case10 => intro seqLoc errs; simp [cloneArgs, exprListHasOpSeq]
  case case11 =>
    intro seqLoc errs a rest c errs1 h1 as errs2 h2 ih1 ih2
    rw [h1] at ih1
    rw [h2] at ih2
    simp at ih1 ih2
    simp [cloneArgs, h1, h2, exprListHasOpSeq, ih1, ih2]
  case case12 =>
    intro items seqLoc errs errs1 hseq ih r errs2 h
    rw [resolveOperatorSeq] at h
    rw [hseq] at h
    simp at h
  case case13 =>
    intro items seqLoc errs operands entries errs1 hseq hbal ih r errs2 h
    rw [resolveOperatorSeq] at h
    rw [hseq] at h
    simp [hbal] at h
  case case14 =>
    intro items seqLoc errs operands entries errs1 hseq hbal hone ih r errs2 h
    have hops : ∀ o ∈ operands, exprHasOpSeq o = false :=
      ih (by simp) (by simp [phaseNoOpSeq]) operands entries errs1 hseq
    rw [resolveOperatorSeq] at h
    rw [hseq] at h
    dsimp only at h
    rw [if_neg hbal, if_pos hone] at h
    injection h with ha hb
    injection ha with ha
    rw [← ha]
    exact getD_noOpSeq operands hops 0
  case case15 =>
    intro items seqLoc errs operands entries errs1 hseq hbal hone ih r errs2 h
    have hops : ∀ o ∈ operands, exprHasOpSeq o = false :=
      ih (by simp) (by simp [phaseNoOpSeq]) operands entries errs1 hseq
    rw [resolveOperatorSeq] at h
    rw [hseq] at h
    dsimp only at h
    rw [if_neg hbal, if_neg hone] at h
    exact buildInfixTree_noOpSeq operands entries hops (operands.length - 1 - 0)
      0 (operands.length - 1) rfl errs1 r errs2 h
  case case16 =>
    intro seqLoc operands entries errs hops hph ops ents errs1 h
    simp only [seqLoop] at h
    injection h with h1 h2
    injection h1 with h1
    injection h1 with ha hb
    subst ha
    exact hops
  case case17 =>
    intro seqLoc operands entries errs head tail hops hph ops ents errs1 h
    simp [seqLoop] at h
  case case18 =>
    intro seqLoc operands entries errs cur hops hph ops ents errs1 h
    simp only [phaseNoOpSeq] at hph
    simp only [seqLoop] at h
    injection h with h1 h2
    injection h1 with h1
    injection h1 with ha hb
    subst ha
    intro o ho
    rcases List.mem_append.mp ho with hmem | hmem
    · exact hops o hmem
    · rw [List.mem_singleton.mp hmem]
      exact hph
  case case19 =>
    intro seqLoc operands entries errs op oloc rest pending hpre ih
      hops hph ops ents errs1 h
    rw [seqLoop] at h
    rw [if_pos hpre] at h
    exact ih hops (by simp [phaseNoOpSeq]) ops ents errs1 h
  case case20 =>
    intro seqLoc operands entries errs op oloc rest pending hpre
      hops hph ops ents errs1 h
    rw [seqLoop] at h
    rw [if_neg hpre] at h
    simp at h
  case case21 =>
    intro seqLoc operands entries errs e loc rest pending errs1 hclone ih
      hops hph ops ents errs2 h
    rw [seqLoop] at h
    rw [hclone] at h
    simp at h
  case case22 =>
    intro seqLoc operands entries errs e loc rest pending cur errs1 hnn hclone
      ihc ih hops hph ops ents errs2 h
    rw [hclone] at ihc
    simp at ihc
    rw [seqLoop] at h
    rw [hclone] at h
    have hphase : phaseNoOpSeq (SeqPhase.haveOperand (applyPrefixOps pending cur seqLoc)) := by
      simp only [phaseNoOpSeq]
      exact applyPrefixOps_noOpSeq pending cur seqLoc ihc
    cases cur with
    | null => exact absurd rfl hnn
    | intLit v l => exact ih hops hphase ops ents errs2 h
    | floatLit v l => exact ih hops hphase ops ents errs2 h
    | stringLit v l => exact ih hops hphase ops ents errs2 h
    | boolLit v l => exact ih hops hphase ops ents errs2 h
    | ident n l => exact ih hops hphase ops ents errs2 h
    | binary o a b l => exact ih hops hphase ops ents errs2 h
    | unary o a p l => exact ih hops hphase ops ents errs2 h
    | opSeq items l => exact ih hops hphase ops ents errs2 h
    | call c as l => exact ih hops hphase ops ents errs2 h
  case case23 =>
    intro seqLoc operands entries errs op oloc rest cur hpost ih
      hops hph ops ents errs1 h
    simp only [phaseNoOpSeq] at hph
    rw [seqLoop] at h
    rw [if_pos hpost] at h
    exact ih hops (by simp [phaseNoOpSeq, exprHasOpSeq, hph]) ops ents errs1 h
  case case24 =>
    intro seqLoc operands entries errs op oloc rest cur hpost hinf
      hops hph ops ents errs1 h
    rw [seqLoop] at h
    rw [if_neg hpost] at h
    rw [hinf] at h
    simp at h
  case case25 =>
    intro seqLoc operands entries errs op oloc rest cur hpost info hinf ih
      hops hph ops ents errs1 h
    simp only [phaseNoOpSeq] at hph
    rw [seqLoop] at h
    rw [if_neg hpost] at h
    rw [hinf] at h
    refine ih ?_ (by simp [phaseNoOpSeq]) ops ents errs1 h
    intro o ho
    rcases List.mem_append.mp ho with hmem | hmem
    · exact hops o hmem
    · rw [List.mem_singleton.mp hmem]
      exact hph
  case case26 =>
    intro seqLoc operands entries errs operand loc tail cur
      hops hph ops ents errs1 h
    simp [seqLoop] at h

/-- `resolve_expr` leaves no operator-sequence node in its output when its
input has the shape the parser produces (no binary or unary node). -/
theorem resolveExpr_noOpSeq (tbl : SymbolTable) :
    (∀ (e : Expr) (errs : List ResolveError), exprBinUnaryFree e = true →
       exprHasOpSeq (resolveExpr tbl e errs).1 = false) ∧
    (∀ (args : List Expr) (errs : List ResolveError),
       exprListBinUnaryFree args = true →
       exprListHasOpSeq (resolveExprList tbl args errs).1 = false) := by
  apply resolveExpr.mutual_induct tbl
  case case1 =>
    intro errs items l r errs1 h hfree
    simp only [resolveExpr, h]
    exact (resolver_noOpSeq tbl).2.2.1 items l errs r errs1 h
  case case2 =>
    intro errs items l errs1 h hfree
    simp [resolveExpr, h, exprHasOpSeq]
  case case3 =>
    intro errs callee args l c errs1 h1 as errs2 h2 ih1 ih2 hfree
    simp only [exprBinUnaryFree, Bool.and_eq_true] at hfree
    have hc := ih1 hfree.1
    have ha := ih2 hfree.2
    rw [h1] at hc
    rw [h2] at ha
    simp at hc ha
    simp [resolveExpr, h1, h2, exprHasOpSeq, hc, ha]
  case case4 =>
    intro errs other h1 h2 hfree
    cases other with
    | null => simp [resolveExpr, exprHasOpSeq]
    | intLit v l => simp [resolveExpr, exprHasOpSeq]
    | floatLit v l => simp [resolveExpr, exprHasOpSeq]
    | stringLit v l => simp [resolveExpr, exprHasOpSeq]
    | boolLit v l => simp [resolveExpr, exprHasOpSeq]
    | ident n l => simp [resolveExpr, exprHasOpSeq]
    | binary op a b l => simp [exprBinUnaryFree] at hfree
    | unary op a p l => simp [exprBinUnaryFree] at hfree
    | opSeq items l => exact absurd rfl (h1 items l)
    | call callee args l => exact absurd rfl (h2 callee args l)
  case case5 =>
    intro errs hfree
    simp [resolveExprList, exprListHasOpSeq]
  case case6 =>
    intro errs a rest c errs1 h1 as errs2 h2 ih1 ih2 hfree
    simp only [exprListBinUnaryFree, Bool.and_eq_true] at hfree
    have hc := ih1 hfree.1
    have ha := ih2 hfree.2
    rw [h1] at hc
    rw [h2] at ha
    simp at hc ha
    simp [resolveExprList, h1, h2, exprListHasOpSeq, hc, ha]

/-- `resolve_stmt` leaves no operator-sequence node in any expression position
of a statement whose expressions have the parser shape. -/
theorem resolveStmt_noOpSeq (tbl : SymbolTable) :
    (∀ (s : Stmt) (errs : List ResolveError), stmtBinUnaryFree s = true →
       stmtHasOpSeq (resolveStmt tbl s errs).1 = false) ∧
    (∀ (stmts : List Stmt) (errs : List ResolveError),
       stmtListBinUnaryFree stmts = true →
       stmtListHasOpSeq (resolveStmtList tbl stmts errs).1 = false) := by
  apply resolveStmt.mutual_induct tbl
  case case1 =>
    intro errs n t init l c errs1 h1 hfree
    simp only [stmtBinUnaryFree] at hfree
    have hc := (resolveExpr_noOpSeq tbl).1 init errs hfree
    rw [h1] at hc
    simp at hc
    simp [resolveStmt, h1, stmtHasOpSeq, hc]
  case case2 =>
    intro errs n ps rt l hfree
    simp [resolveStmt, stmtHasOpSeq, optStmtHasOpSeq]
  case case3 =>
    intro errs n ps rt l b b1 errs1 h1 ih hfree
    simp only [stmtBinUnaryFree, optStmtBinUnaryFree] at hfree
    have hb := ih hfree
    rw [h1] at hb
    simp at hb
    simp [resolveStmt, h1, stmtHasOpSeq, optStmtHasOpSeq, hb]
  case case4 =>
    intro errs op pos ps rt prec assoc l hfree
    simp [resolveStmt, stmtHasOpSeq, optStmtHasOpSeq]
  case case5 =>
    intro errs op pos ps rt prec assoc l b b1 errs1 h1 ih hfree
    simp only [stmtBinUnaryFree, optStmtBinUnaryFree] at hfree
    have hb := ih hfree
    rw [h1] at hb
    simp at hb
    simp [resolveStmt, h1, stmtHasOpSeq, optStmtHasOpSeq, hb]
  case case6 =>
    intro errs cond thenB l c errs1 h1 b1 errs2 h2 ih hfree
    simp only [stmtBinUnaryFree, optStmtBinUnaryFree, Bool.and_eq_true] at hfree
    have hc := (resolveExpr_noOpSeq tbl).1 cond errs hfree.1.1
    rw [h1] at hc
    simp at hc
    have hb := ih hfree.1.2
    rw [h2] at hb
    simp at hb
    simp [resolveStmt, h1, h2, stmtHasOpSeq, optStmtHasOpSeq, hc, hb]
  case case7 =>
    intro errs cond thenB l c errs1 h1 b1 errs2 h2 b b2 errs3 h3 ih1 ih2 hfree
    simp only [stmtBinUnaryFree, optStmtBinUnaryFree, Bool.and_eq_true] at hfree
    have hc := (resolveExpr_noOpSeq tbl).1 cond errs hfree.1.1
    rw [h1] at hc
    simp at hc
    have hthen := ih1 hfree.1.2
    rw [h2] at hthen
    simp at hthen
    have helse := ih2 hfree.2
    rw [h3] at helse
    simp at helse
    simp [resolveStmt, h1, h2, h3, stmtHasOpSeq, optStmtHasOpSeq, hc, hthen, helse]
  case case8 =>
    intro errs l hfree
    simp [resolveStmt, stmtHasOpSeq]
  case case9 =>
    intro errs l v c errs1 h1 hfree
    simp only [stmtBinUnaryFree] at hfree
    have hc := (resolveExpr_noOpSeq tbl).1 v errs hfree
    rw [h1] at hc
    simp at hc
    simp [resolveStmt, h1, stmtHasOpSeq, hc]
  case case10 =>
    intro errs cond body l c errs1 h1 b1 errs2 h2 ih hfree
    simp only [stmtBinUnaryFree, Bool.and_eq_true] at hfree
    have hc := (resolveExpr_noOpSeq tbl).1 cond errs hfree.1
    rw [h1] at hc
    simp at hc
    have hb := ih hfree.2
    rw [h2] at hb
    simp at hb
    simp [resolveStmt, h1, h2, stmtHasOpSeq, hc, hb]
  case case11 =>
    intro errs e l c errs1 h1 hfree
    simp only [stmtBinUnaryFree] at hfree
    have hc := (resolveExpr_noOpSeq tbl).1 e errs hfree
    rw [h1] at hc
    simp at hc
    simp [resolveStmt, h1, stmtHasOpSeq, hc]
  case case12 =>
    intro errs stmts l stmts1 errs1 h1 ih hfree
    simp only [stmtBinUnaryFree] at hfree
    have hb := ih hfree
    rw [h1] at hb
    simp at hb
    simp [resolveStmt, h1, stmtHasOpSeq, hb]
  case case13 =>
    intro errs hfree
    simp [resolveStmtList, stmtListHasOpSeq]
  case case14 =>
    intro errs s rest b1 errs1 h1 stmts1 errs2 h2 ih1 ih2 hfree
    simp only [stmtListBinUnaryFree, Bool.and_eq_true] at hfree
    have hs := ih1 hfree.1
    rw [h1] at hs
    simp at hs
    have hr := ih2 hfree.2
    rw [h2] at hr
    simp at hr
    simp [resolveStmtList, h1, h2, stmtListHasOpSeq, hs, hr]

/-! ### Characterization of the split point chosen by the scan -/

/-- Precedence of the operator at index `i` of the collected infix list. -/
def entryPrec (entries : List InfixEntry) (i : Nat) : Int :=
  (entries.getD i default).precedence

/-- Associativity of the operator at index `i`. -/
def entryAssoc (entries : List InfixEntry) (i : Nat) : Associativity :=
  (entries.getD i default).assoc

/-- The split point in the spec sense: the operator with the lowest
precedence in the range; among tied occurrences, the rightmost when the
operators are left-associative and the leftmost when right-associative. -/
def IsSpecSplitPoint (entries : List InfixEntry) (start fin sp : Nat) : Prop :=
  start ≤ sp ∧ sp < fin ∧
  (∀ j, start ≤ j → j < fin → entryPrec entries sp ≤ entryPrec entries j) ∧
  (entryAssoc entries sp = .Left →
    ∀ j, sp < j → j < fin → entryPrec entries sp < entryPrec entries j) ∧
  (entryAssoc entries sp = .Right →
    ∀ j, start ≤ j → j < sp → entryPrec entries sp < entryPrec entries j)

/-- Loop invariant of the split scan after processing `[start, i)`. -/
def ScanInv (entries : List InfixEntry) (start i : Nat) (st : ScanState) : Prop :=
  st.found = true ∧ start ≤ st.splitPos ∧ st.splitPos < i ∧
  entryPrec entries st.splitPos = st.lowestPrec ∧
  entryAssoc entries st.splitPos = st.lowestAssoc ∧
  (∀ j, start ≤ j → j < i → st.lowestPrec ≤ entryPrec entries j) ∧
  (st.lowestAssoc = .Left →
    ∀ j, st.splitPos < j → j < i → st.lowestPrec < entryPrec entries j) ∧
  (st.lowestAssoc = .Right →
    ∀ j, start ≤ j → j < st.splitPos → st.lowestPrec < entryPrec entries j)

/-- One full scan starting in an invariant state preserves the invariant. -/
theorem scanOps_preserves_inv (entries : List InfixEntry) (start : Nat) :
    ∀ (n i : Nat) (st st' : ScanState), ScanInv entries start i st →
      scanOps entries i n st = .ok st' → ScanInv entries start (i + n) st' := by
  intro n
  induction n with
  | zero =>
    intro i st st' hinv h
    simp only [scanOps] at h
    cases h
    simpa using hinv
  | succ n ih =>
    intro i st st' hinv h
    rw [show i + (n + 1) = i + 1 + n from by omega]
    obtain ⟨hfound, hle, hlt, hprec, hassoc, hmin, hleft, hright⟩ := hinv
    simp only [scanOps] at h
    split at h
    · next hcond =>
      refine ih (i + 1) _ st' ?_ h
      refine ⟨rfl, by dsimp only; omega, by dsimp only; omega, rfl, rfl, ?_, ?_, ?_⟩
      · intro j hj1 hj2
        rcases Nat.lt_or_ge j i with hji | hji
        · have h2 := hmin j hj1 hji
          dsimp only
          simp only [entryPrec] at h2 ⊢
          omega
        · have : j = i := by omega
          subst this
          simp [entryPrec]
      · intro _ j hj1 hj2
        dsimp only at hj1 hj2
        omega
      · intro _ j hj1 hj2
        dsimp only at hj2
        have h2 := hmin j hj1 hj2
        simp only [entryPrec] at h2 ⊢
        omega
    · split at h
      · next heq =>
        split at h
        · cases h
        · next hne =>
          rw [not_not] at hne
          split at h
          · next hl =>
            refine ih (i + 1) _ st' ?_ h
            have hla : st.lowestAssoc = .Left := by rw [← hne, hl]
            refine ⟨hfound, by dsimp only; omega, by dsimp only; omega, ?_, ?_, ?_, ?_, ?_⟩
            · dsimp only
              simp only [entryPrec]
              rw [heq]
            · dsimp only
              simp only [entryAssoc]
              rw [hl, hla]
            · intro j hj1 hj2
              dsimp only
              rcases Nat.lt_or_ge j i with hji | hji
              · exact hmin j hj1 hji
              · have : j = i := by omega
                subst this
                simp only [entryPrec]
                omega
            · intro _ j hj1 hj2
              dsimp only at hj1 hj2 ⊢
              omega
            · intro hr j hj1 hj2
              dsimp only at hr hj1 hj2 ⊢
              rw [hla] at hr
              cases hr
          · next hl =>
            refine ih (i + 1) _ st' ?_ h
            have hra : st.lowestAssoc = .Right := by
              rw [← hne]
              cases hx : (entries.getD i default).assoc
              · exact absurd hx hl
              · rfl
            refine ⟨hfound, hle, by omega, hprec, hassoc, ?_, ?_, ?_⟩
            · intro j hj1 hj2
              rcases Nat.lt_or_ge j i with hji | hji
              · exact hmin j hj1 hji
              · have : j = i := by omega
                subst this
                simp only [entryPrec]
                omega
            · intro hlf
              rw [hra] at hlf
              cases hlf
            · intro _ j hj1 hj2
              exact hright hra j hj1 hj2
      · next hgt =>
        refine ih (i + 1) _ st' ?_ h
        refine ⟨hfound, hle, by omega, hprec, hassoc, ?_, ?_, ?_⟩
        · intro j hj1 hj2
          rcases Nat.lt_or_ge j i with hji | hji
          · exact hmin j hj1 hji
          · have : j = i := by omega
            subst this
            simp only [entryPrec]
            omega
        · intro hlf j hj1 hj2
          rcases Nat.lt_or_ge j i with hji | hji
          · exact hleft hlf j hj1 hji
          · have : j = i := by omega
            subst this
            simp only [entryPrec]
            omega
        · intro hr j hj1 hj2
          exact hright hr j hj1 hj2

/-- Starting the scan from the initial sentinel state on a nonempty range
with all precedences below 1000 ends in an invariant state. -/
theorem scanOps_full_inv (entries : List InfixEntry) (start fin : Nat)
    (st' : ScanState) (h1 : start < fin)
    (hprec : ∀ j, start ≤ j → j < fin → entryPrec entries j < 1000)
    (hok : scanOps entries start (fin - start) ⟨1000, start, false, .Left⟩ =
      .ok st') : ScanInv entries start fin st' := by
  obtain ⟨n, hn⟩ : ∃ n, fin - start = n + 1 := ⟨fin - start - 1, by omega⟩
  rw [hn] at hok
  simp only [scanOps] at hok
  rw [if_pos ?hc] at hok
  case hc =>
    dsimp only
    have := hprec start le_rfl h1
    rw [entryPrec] at this
    omega
  have hinv1 : ScanInv entries start (start + 1)
      ⟨(entries.getD start default).precedence, start, true,
        (entries.getD start default).assoc⟩ := by
    refine ⟨rfl, le_rfl, by dsimp only; omega, rfl, rfl, ?_, ?_, ?_⟩
    · intro j hj1 hj2
      have : j = start := by omega
      subst this
      exact le_rfl
    · intro _ j hj1 hj2
      dsimp only at hj1 hj2
      omega
    · intro _ j hj1 hj2
      dsimp only at hj2
      omega
  have := scanOps_preserves_inv entries start n (start + 1) _ st' hinv1 hok
  have hfs : start + 1 + n = fin := by omega
  rwa [hfs] at this

/-- An invariant final state is a spec split point. -/
theorem scanInv_isSpecSplitPoint (entries : List InfixEntry)
    (start fin : Nat) (st : ScanState) (h : ScanInv entries start fin st) :
    IsSpecSplitPoint entries start fin st.splitPos := by
  obtain ⟨hfound, hle, hlt, hprec, hassoc, hmin, hleft, hright⟩ := h
  refine ⟨hle, hlt, ?_, ?_, ?_⟩
  · intro j hj1 hj2
    rw [hprec]
    exact hmin j hj1 hj2
  · intro hl j hj1 hj2
    rw [hprec]
    exact hleft (by rw [← hassoc, hl]) j hj1 hj2
  · intro hr j hj1 hj2
    rw [hprec]
    exact hright (by rw [← hassoc, hr]) j hj1 hj2

/-- When the scan succeeds with a found split, a successful tree construction
returns a binary node labelled and located at the split operator. -/
theorem buildInfixTree_root (operands : List Expr) (entries : List InfixEntry)
    (start fin : Nat) (errs : List ResolveError) (st : ScanState)
    (hne : start ≠ fin)
    (hscan : scanOps entries start (fin - start) ⟨1000, start, false, .Left⟩ =
      .ok st)
    (hfound : st.found = true) (e : Expr) (errs1 : List ResolveError)
    (hb : buildInfixTree operands entries start fin errs = (some e, errs1)) :
    ∃ l r, e = .binary (entries.getD st.splitPos default).op l r
      (entries.getD st.splitPos default).loc := by
  rw [buildInfixTree] at hb
  rw [if_neg hne] at hb
  split at hb
  · next i st2 heq =>
    rw [hscan] at heq
    cases heq
  · next st2 heq =>
    rw [hscan] at heq
    injection heq with heq
    subst heq
    split at hb
    · split at hb
      · cases hb
      · next l errsl hleft =>
        split at hb
        · cases hb
        · next rr errsr hright =>
          injection hb with hb1 hb2
          injection hb1 with hb1
          exact ⟨l, rr, hb1.symm⟩
    · next hnf =>
      exact absurd hfound hnf

/-- Source span of an expression node (`Expr::loc`); the null pointer has no
span and yields the unknown location. -/
def exprLoc : Expr → SourceLocation
  | .null => default
  | .intLit _ l => l
  | .floatLit _ l => l
  | .stringLit _ l => l
  | .boolLit _ l => l
  | .ident _ l => l
  | .binary _ _ _ l => l
  | .unary _ _ _ l => l
  | .opSeq _ l => l
  | .call _ _ l => l

/-- `find?` over a list is the head of its `filter`. -/
theorem find?_eq_head_filter {α : Type} (p : α → Bool) (l : List α) :
    l.find? p = (l.filter p).head? := by
  induction l with
  | nil => simp
  | cons a rest ih =>
    by_cases hp : p a
    · simp [List.find?, List.filter, hp]
    · simp only [List.find?, List.filter, hp]
      exact ih

/-- Appending a new overload never changes an existing `find?` result. -/
theorem find?_append_of_some {α : Type} (p : α → Bool) (l l2 : List α)
    (x : α) (h : l.find? p = some x) : (l ++ l2).find? p = some x := by
  induction l with
  | nil => simp [List.find?] at h
  | cons a rest ih =>
    by_cases hp : p a
    · simp [List.find?, hp] at h ⊢
      exact h
    · simp only [List.cons_append, List.find?, hp] at h ⊢
      exact ih h

/-! ### Example data for the resolver claims -/

/-- The parsed operator sequence of `1 + 2 * 3` in `let x = 1 + 2 * 3;`:
literal tokens at columns 9, 13, 17 and operator tokens at columns 11, 15. -/
def c1Items : List OpSeqItem :=
  [ .operandItem (.intLit "1" ⟨1, 9, 10⟩) ⟨1, 9, 10⟩,
    .operatorItem "+" ⟨1, 11, 12⟩,
    .operandItem (.intLit "2" ⟨1, 13, 14⟩) ⟨1, 13, 14⟩,
    .operatorItem "*" ⟨1, 15, 16⟩,
    .operandItem (.intLit "3" ⟨1, 17, 18⟩) ⟨1, 17, 18⟩ ]

/-- The infix entries step 1 collects from `c1Items` under the prelude
table. -/
def c1Entries : List InfixEntry :=
  [⟨"+", 70, .Left, ⟨1, 11, 12⟩⟩, ⟨"*", 80, .Left, ⟨1, 15, 16⟩⟩]

/-- A table with a user infix operator `??` declared at precedence 1000 (the
parser accepts any integer after `prec`; nothing rejects 1000). -/
def c1BadTable : SymbolTable :=
  preludeTable.addOperator ⟨"??", .Infix, 1000, .Left, ⟨["i32", "i32"], "i32"⟩, .User⟩

/-- The parsed operator sequence of `a ?? b`. -/
def c1BadItems : List OpSeqItem :=
  [ .operandItem (.ident "a" ⟨1, 1, 2⟩) ⟨1, 1, 2⟩,
    .operatorItem "??" ⟨1, 3, 5⟩,
    .operandItem (.ident "b" ⟨1, 6, 7⟩) ⟨1, 6, 7⟩ ]

/-- Claim C1, counterexample: with `??` declared infix at precedence 1000 (the
initial value of `lowest_prec`), the `prec < lowest_prec` test never fires,
`found` stays false, and `build_infix_tree` silently returns the leftmost
operand: resolving `a ?? b` yields the bare identifier `a` with no error, not
a tree rooted at the lowest-precedence operator `??`. -/
theorem claim_c1_counterexample :
    resolveOperatorSeq c1BadTable c1BadItems ⟨1, 1, 2⟩ [] =
      (some (.ident "a" ⟨1, 1, 2⟩), []) := by
  simp [resolveOperatorSeq, seqLoop, cloneOperand, applyPrefixOps,
    buildInfixTree, scanOps, SymbolTable.findOperator, SymbolTable.addOperator,
    preludeTable, preludeOperators, pInfix, pPrefix, List.find?, c1BadTable,
    c1BadItems]

/-- Claim C1 (amended: all collected precedences must lie below the scan
sentinel 1000): whenever the split scan of `build_infix_tree` succeeds on a
nonempty operator range whose precedences are all below 1000, the state it
returns marks a split point in the spec sense (lowest precedence; rightmost
tied occurrence for left-associative operators, leftmost for
right-associative), and a successfully built tree is a binary node labelled
with that split operator; in particular resolving the parsed `1 + 2 * 3`
under the prelude table yields `+` applied to literal 1 and to the `*` node
over literals 2 and 3. -/
theorem claim_c1_split_point :
    (∀ (operands : List Expr) (entries : List InfixEntry) (start fin : Nat)
       (errs : List ResolveError) (st : ScanState),
       start < fin →
       (∀ j, start ≤ j → j < fin → entryPrec entries j < 1000) →
       scanOps entries start (fin - start) ⟨1000, start, false, .Left⟩ = .ok st →
       IsSpecSplitPoint entries start fin st.splitPos ∧
       ∀ (e : Expr) (errs1 : List ResolveError),
         buildInfixTree operands entries start fin errs = (some e, errs1) →
         ∃ l r, e = .binary (entries.getD st.splitPos default).op l r
           (entries.getD st.splitPos default).loc) ∧
    resolveOperatorSeq preludeTable c1Items ⟨1, 9, 10⟩ [] =
      (some (.binary "+" (.intLit "1" ⟨1, 9, 10⟩)
        (.binary "*" (.intLit "2" ⟨1, 13, 14⟩) (.intLit "3" ⟨1, 17, 18⟩)
          ⟨1, 15, 16⟩) ⟨1, 11, 12⟩), []) := by
  constructor
  · intro operands entries start fin errs st hlt hprec hscan
    have hinv := scanOps_full_inv entries start fin st hlt hprec hscan
    refine ⟨scanInv_isSpecSplitPoint entries start fin st hinv, ?_⟩
    intro e errs1 hb
    exact buildInfixTree_root operands entries start fin errs st
      (by omega) hscan hinv.1 e errs1 hb
  · simp [resolveOperatorSeq, seqLoop, cloneOperand, applyPrefixOps,
      buildInfixTree, scanOps, SymbolTable.findOperator, preludeTable,
      preludeOperators, pInfix, pPrefix, List.find?, c1Items]

/-- Witness for C1: the general part applied to the entries collected from
`1 + 2 * 3`, whose scan ends in state `(70, 0, found, Left)`. -/
theorem claim_c1_split_point_witness :
    ((0 : Nat) < 2 ∧ (∀ j, 0 ≤ j → j < 2 → entryPrec c1Entries j < 1000) ∧
      scanOps c1Entries 0 (2 - 0) ⟨1000, 0, false, .Left⟩ =
        .ok ⟨70, 0, true, .Left⟩) ∧
    IsSpecSplitPoint c1Entries 0 2 0 := by
  have h1 : (0 : Nat) < 2 := by omega
  have h2 : ∀ j, 0 ≤ j → j < 2 → entryPrec c1Entries j < 1000 := by
    intro j hj0 hj2
    interval_cases j <;> decide
  have h3 : scanOps c1Entries 0 (2 - 0) ⟨1000, 0, false, .Left⟩ =
      .ok ⟨70, 0, true, .Left⟩ := by simp [scanOps, c1Entries]
  have hmain := (claim_c1_split_point.1 [] c1Entries 0 2 []
    ⟨70, 0, true, .Left⟩ h1 h2 h3).1
  exact ⟨⟨h1, h2, h3⟩, hmain⟩

/-- When the split scan aborts with a conflict, `build_infix_tree` appends the
mixed-associativity error located at the conflicting entry and returns no
expression. -/
theorem buildInfixTree_error_eq (operands : List Expr)
    (entries : List InfixEntry) (start fin : Nat) (errs : List ResolveError)
    (i : Nat) (st : ScanState) (hne : ¬ start = fin)
    (hscan : scanOps entries start (fin - start) ⟨1000, start, false, .Left⟩ =
      .error (i, st)) :
    buildInfixTree operands entries start fin errs =
      (none, errs ++ [⟨mixedAssocMessage entries i st.splitPos st.lowestAssoc,
        (entries.getD i default).loc.line,
        (entries.getD i default).loc.column⟩]) := by
  rw [buildInfixTree, if_neg hne]
  split
  · next i2 st2 heq =>
    rw [hscan] at heq
    injection heq with h
    injection h with h1 h2
    subst h1
    subst h2
    rfl
  · next st2 heq =>
    rw [hscan] at heq
    cases heq

/-- The two conflicting user operators of the `a +< b +> c` scenario:
left-associative `+<` and right-associative `+>`, both precedence 70. -/
def c3E1 : InfixEntry := ⟨"+<", 70, .Left, ⟨5, 11, 13⟩⟩

/-- The second conflicting operator entry. -/
def c3E2 : InfixEntry := ⟨"+>", 70, .Right, ⟨5, 16, 18⟩⟩

/-- A table with both conflicting operators declared (prelude first). -/
def c3Table : SymbolTable :=
  (preludeTable.addOperator
    ⟨"+<", .Infix, 70, .Left, ⟨["i32", "i32"], "i32"⟩, .User⟩).addOperator
    ⟨"+>", .Infix, 70, .Right, ⟨["i32", "i32"], "i32"⟩, .User⟩

/-- The parsed operator sequence of `a +< b +> c` on line 5 of
`let x = a +< b +> c;`. -/
def c3Items : List OpSeqItem :=
  [ .operandItem (.ident "a" ⟨5, 9, 10⟩) ⟨5, 9, 10⟩,
    .operatorItem "+<" ⟨5, 11, 13⟩,
    .operandItem (.ident "b" ⟨5, 14, 15⟩) ⟨5, 14, 15⟩,
    .operatorItem "+>" ⟨5, 16, 18⟩,
    .operandItem (.ident "c" ⟨5, 19, 20⟩) ⟨5, 19, 20⟩ ]

/-- The infix entries step 1 collects from `c3Items` under `c3Table`. -/
def c3Entries : List InfixEntry := [c3E1, c3E2]

/-- Claim C3 (amended: for conflicting precedences below the scan sentinel
1000, and the error is located at the start of the second conflicting
operator token): two adjacent infix entries at the same precedence below 1000
with disagreeing associativities make `build_infix_tree` abort with exactly
one appended mixed-associativity error whose line/column are the second
entry's token start; concretely, resolving `a +< b +> c` with
left-associative `+<` and right-associative `+>` (both precedence 70) yields
no expression and exactly one error at line 5, column 16 — the start of
`+>`. -/
theorem claim_c3_mixed_assoc :
    (∀ (operands : List Expr) (e1 e2 : InfixEntry) (errs : List ResolveError),
       e1.precedence = e2.precedence → e1.precedence < 1000 →
       ¬ e1.assoc = e2.assoc →
       buildInfixTree operands [e1, e2] 0 2 errs =
         (none, errs ++ [⟨mixedAssocMessage [e1, e2] 1 0 e1.assoc,
           e2.loc.line, e2.loc.column⟩])) ∧
    resolveOperatorSeq c3Table c3Items ⟨5, 9, 10⟩ [] =
      (none, [⟨mixedAssocMessage c3Entries 1 0 .Left, 5, 16⟩]) := by
  constructor
  · intro operands e1 e2 errs hpe hlt hne
    have hscan : scanOps [e1, e2] 0 (2 - 0) ⟨1000, 0, false, .Left⟩ =
        .error (1, ⟨e1.precedence, 0, true, e1.assoc⟩) := by
      show scanOps [e1, e2] 0 (0 + 1 + 1) ⟨1000, 0, false, .Left⟩ = _
      rw [scanOps]
      simp only [List.getD_cons_zero]
      rw [if_pos (show e1.precedence < (1000 : Int) from by omega)]
      rw [scanOps]
      simp only [List.getD_cons_succ, List.getD_cons_zero]
      rw [if_neg (show ¬ e2.precedence < e1.precedence from by omega)]
      rw [if_pos (show e2.precedence = e1.precedence from hpe.symm)]
      rw [if_pos (show e2.assoc ≠ e1.assoc from fun h => hne h.symm)]
    have hmain := buildInfixTree_error_eq operands [e1, e2] 0 2 errs 1
      ⟨e1.precedence, 0, true, e1.assoc⟩ (by omega) hscan
    rw [hmain]
    simp only [List.getD_cons_succ, List.getD_cons_zero]
  · simp only [c3Table, c3Items, c3Entries, c3E1, c3E2]
    simp [resolveOperatorSeq, seqLoop, cloneOperand, applyPrefixOps,
      buildInfixTree, scanOps, SymbolTable.findOperator,
      SymbolTable.addOperator, preludeTable, preludeOperators, pInfix,
      pPrefix, List.find?]

/-- Witness for C3: the general part applied to the `+<`/`+>` entries. -/
theorem claim_c3_mixed_assoc_witness :
    (c3E1.precedence = c3E2.precedence ∧ c3E1.precedence < 1000 ∧
      ¬ c3E1.assoc = c3E2.assoc) ∧
    buildInfixTree [] [c3E1, c3E2] 0 2 [] =
      (none, [] ++ [⟨mixedAssocMessage [c3E1, c3E2] 1 0 c3E1.assoc,
        c3E2.loc.line, c3E2.loc.column⟩]) := by
  have h1 : c3E1.precedence = c3E2.precedence := by decide
  have h2 : c3E1.precedence < 1000 := by decide
  have h3 : ¬ c3E1.assoc = c3E2.assoc := by decide
  exact ⟨⟨h1, h2, h3⟩, claim_c3_mixed_assoc.1 [] c3E1 c3E2 [] h1 h2 h3⟩

/-- A table declaring `+>` (right-associative) then `+<` (left-associative),
both at the sentinel precedence 1000. -/
def c3BadTable : SymbolTable :=
  (preludeTable.addOperator
    ⟨"+>", .Infix, 1000, .Right, ⟨["i32", "i32"], "i32"⟩, .User⟩).addOperator
    ⟨"+<", .Infix, 1000, .Left, ⟨["i32", "i32"], "i32"⟩, .User⟩

/-- The parsed operator sequence of `a +> b +< c` on line 6. -/
def c3BadItems : List OpSeqItem :=
  [ .operandItem (.ident "a" ⟨6, 9, 10⟩) ⟨6, 9, 10⟩,
    .operatorItem "+>" ⟨6, 11, 13⟩,
    .operandItem (.ident "b" ⟨6, 14, 15⟩) ⟨6, 14, 15⟩,
    .operatorItem "+<" ⟨6, 16, 18⟩,
    .operandItem (.ident "c" ⟨6, 19, 20⟩) ⟨6, 19, 20⟩ ]

/-- The infix entries step 1 collects from `c3BadItems` under `c3BadTable`. -/
def c3BadEntries : List InfixEntry :=
  [⟨"+>", 1000, .Right, ⟨6, 11, 13⟩⟩, ⟨"+<", 1000, .Left, ⟨6, 16, 18⟩⟩]

/-- Claim C3, counterexample: with the same two conflicting operators declared
at precedence 1000, the scan compares the first operator against the
sentinel-initialized state (`lowest_prec = 1000`, associativity Left,
`found = false`) and reports the conflict against index 0 itself: the single
error is located at line 6, column 11 — the start of the FIRST operator
token `+>` — while the second conflicting operator `+<` starts at column 16,
contradicting the claim that the error always points at the second (later)
conflicting operator. -/
theorem claim_c3_counterexample :
    resolveOperatorSeq c3BadTable c3BadItems ⟨6, 9, 10⟩ [] =
      (none, [⟨mixedAssocMessage c3BadEntries 0 0 .Left, 6, 11⟩]) ∧
    (c3BadEntries.getD 1 default).loc.column = 16 := by
  constructor
  · simp only [c3BadTable, c3BadItems, c3BadEntries]
    simp [resolveOperatorSeq, seqLoop, cloneOperand, applyPrefixOps,
      buildInfixTree, scanOps, SymbolTable.findOperator,
      SymbolTable.addOperator, preludeTable, preludeOperators, pInfix,
      pPrefix, List.find?]
  · decide

/-- The parsed operator sequence of `a + - b` on line 1: `a` at column 1,
`+` at column 3, prefix `-` at column 5, `b` at column 7. -/
def c7Items : List OpSeqItem :=
  [ .operandItem (.ident "a" ⟨1, 1, 2⟩) ⟨1, 1, 2⟩,
    .operatorItem "+" ⟨1, 3, 4⟩,
    .operatorItem "-" ⟨1, 5, 6⟩,
    .operandItem (.ident "b" ⟨1, 7, 8⟩) ⟨1, 7, 8⟩ ]

/-- Claim C7, counterexample: resolving `a + - b` under the prelude table
synthesizes the unary `-` node with the whole sequence's span `(1,1)` (the
C++ code passes `seq->loc` to every `UnaryExpr` it creates), not the span
`(1,5)` of the `-` operator token itself, contradicting the claim that each
unary node carries its own operator token's span. -/
theorem claim_c7_counterexample :
    resolveOperatorSeq preludeTable c7Items ⟨1, 1, 2⟩ [] =
      (some (.binary "+" (.ident "a" ⟨1, 1, 2⟩)
        (.unary "-" (.ident "b" ⟨1, 7, 8⟩) .Prefix ⟨1, 1, 2⟩) ⟨1, 3, 4⟩), []) ∧
    exprLoc (.unary "-" (.ident "b" ⟨1, 7, 8⟩) .Prefix ⟨1, 1, 2⟩) ≠
      ⟨1, 5, 6⟩ := by
  constructor
  · simp [resolveOperatorSeq, seqLoop, cloneOperand, applyPrefixOps,
      buildInfixTree, scanOps, SymbolTable.findOperator, preludeTable,
      preludeOperators, pInfix, pPrefix, List.find?, c7Items]
  · decide

/-- A table with a user postfix operator `!!` on i32. -/
def c7PostTable : SymbolTable :=
  preludeTable.addOperator ⟨"!!", .Postfix, 0, .Left, ⟨["i32"], "i32"⟩, .User⟩

/-- The parsed operator sequence of `a !!` on line 2. -/
def c7PostItems : List OpSeqItem :=
  [ .operandItem (.ident "a" ⟨2, 1, 2⟩) ⟨2, 1, 2⟩,
    .operatorItem "!!" ⟨2, 3, 5⟩ ]

/-- The single infix entry collected from `a + - b`. -/
def c7Entries : List InfixEntry := [⟨"+", 70, .Left, ⟨1, 3, 4⟩⟩]

/-- The operands collected from `a + - b` (the prefix `-` already folded). -/
def c7Operands : List Expr :=
  [.ident "a" ⟨1, 1, 2⟩, .unary "-" (.ident "b" ⟨1, 7, 8⟩) .Prefix ⟨1, 1, 2⟩]

/-- The tree built from `c7Operands`/`c7Entries`. -/
def c7Root : Expr :=
  .binary "+" (.ident "a" ⟨1, 1, 2⟩)
    (.unary "-" (.ident "b" ⟨1, 7, 8⟩) .Prefix ⟨1, 1, 2⟩) ⟨1, 3, 4⟩

/-- Claim C7 (amended: binary nodes carry their split infix operator token's
span, while unary nodes synthesized by prefix or postfix folding carry the
span of the whole operator-sequence node, `seq->loc`): a successfully built
infix tree's root carries the split operator's span; every prefix fold
carries the sequence span; and resolving the postfix sequence `a !!` yields
a unary node carrying the sequence span. -/
theorem claim_c7_locations :
    (∀ (operands : List Expr) (entries : List InfixEntry) (start fin : Nat)
       (errs : List ResolveError) (st : ScanState) (e : Expr)
       (errs1 : List ResolveError),
       start < fin →
       scanOps entries start (fin - start) ⟨1000, start, false, .Left⟩ = .ok st →
       st.found = true →
       buildInfixTree operands entries start fin errs = (some e, errs1) →
       exprLoc e = (entries.getD st.splitPos default).loc) ∧
    (∀ (op : String) (ops : List String) (cur : Expr) (seqLoc : SourceLocation),
       exprLoc (applyPrefixOps (op :: ops) cur seqLoc) = seqLoc) ∧
    resolveOperatorSeq c7PostTable c7PostItems ⟨2, 1, 2⟩ [] =
      (some (.unary "!!" (.ident "a" ⟨2, 1, 2⟩) .Postfix ⟨2, 1, 2⟩), []) := by
  refine ⟨?_, ?_, ?_⟩
  · intro operands entries start fin errs st e errs1 hlt hscan hfound hb
    obtain ⟨l, r, he⟩ := buildInfixTree_root operands entries start fin errs
      st (by omega) hscan hfound e errs1 hb
    rw [he]
    rfl
  · intro op ops cur seqLoc
    rfl
  · simp [resolveOperatorSeq, seqLoop, cloneOperand, applyPrefixOps,
      buildInfixTree, scanOps, SymbolTable.findOperator,
      SymbolTable.addOperator, preludeTable, preludeOperators, pInfix,
      pPrefix, List.find?, c7PostTable, c7PostItems]

/-- Witness for C7: the root-location part applied to the tree built from the
operands and the single `+` entry of `a + - b`. -/
theorem claim_c7_locations_witness :
    ((0 : Nat) < 1 ∧
      scanOps c7Entries 0 (1 - 0) ⟨1000, 0, false, .Left⟩ =
        .ok ⟨70, 0, true, .Left⟩ ∧
      (⟨70, 0, true, .Left⟩ : ScanState).found = true ∧
      buildInfixTree c7Operands c7Entries 0 1 [] = (some c7Root, [])) ∧
    exprLoc c7Root =
      (c7Entries.getD (⟨70, 0, true, .Left⟩ : ScanState).splitPos default).loc := by
  have h1 : (0 : Nat) < 1 := by omega
  have h2 : scanOps c7Entries 0 (1 - 0) ⟨1000, 0, false, .Left⟩ =
      .ok ⟨70, 0, true, .Left⟩ := by simp [scanOps, c7Entries]
  have h3 : (⟨70, 0, true, .Left⟩ : ScanState).found = true := rfl
  have h4 : buildInfixTree c7Operands c7Entries 0 1 [] = (some c7Root, []) := by
    simp [buildInfixTree, scanOps, c7Entries, c7Operands, c7Root]
  exact ⟨⟨h1, h2, h3, h4⟩, claim_c7_locations.1 c7Operands c7Entries 0 1 []
    ⟨70, 0, true, .Left⟩ c7Root [] h1 h2 h3 h4⟩

/-- A later user overload of `+` declared with a different precedence and
associativity (95, right) than the prelude `+` (70, left). -/
def c10UserPlus : OperatorInfo :=
  ⟨"+", .Infix, 95, .Right, ⟨["i32", "i32"], "i32"⟩, .User⟩

/-- The table after the user overload of `+` is added behind the prelude. -/
def c10Table : SymbolTable := preludeTable.addOperator c10UserPlus

/-- The parsed operator sequence of `1 + 2 + 3` on line 1. -/
def c10Items : List OpSeqItem :=
  [ .operandItem (.intLit "1" ⟨1, 1, 2⟩) ⟨1, 1, 2⟩,
    .operatorItem "+" ⟨1, 3, 4⟩,
    .operandItem (.intLit "2" ⟨1, 5, 6⟩) ⟨1, 5, 6⟩,
    .operatorItem "+" ⟨1, 7, 8⟩,
    .operandItem (.intLit "3" ⟨1, 9, 10⟩) ⟨1, 9, 10⟩ ]

/-- Claim C10: the single-result operator lookup returns the first-inserted
overload — it survives any later `add_operator`, and equals the head of the
all-overloads list; consequently, after a user redeclaration of `+` at
precedence 95 right-associative, lookup still yields the prelude `+`
(70, left) and `1 + 2 + 3` still resolves left-associated as
`(1 + 2) + 3`, the later overload's precedence and associativity being
ignored. -/
theorem claim_c10_first_overload :
    (∀ (t : SymbolTable) (info : OperatorInfo) (op : String)
       (pos : OpPosition) (x : OperatorInfo),
       t.findOperator op pos = some x →
       (t.addOperator info).findOperator op pos = some x) ∧
    (∀ (t : SymbolTable) (op : String) (pos : OpPosition),
       t.findOperator op pos = (t.findOperators op pos).head?) ∧
    c10Table.findOperator "+" .Infix =
      some (pInfix "+" 70 .Left "i32" "i32" "i32") ∧
    resolveOperatorSeq c10Table c10Items ⟨1, 1, 2⟩ [] =
      (some (.binary "+" (.binary "+" (.intLit "1" ⟨1, 1, 2⟩)
        (.intLit "2" ⟨1, 5, 6⟩) ⟨1, 3, 4⟩) (.intLit "3" ⟨1, 9, 10⟩)
        ⟨1, 7, 8⟩), []) := by
  refine ⟨?_, ?_, ?_, ?_⟩
  · intro t info op pos x h
    simp only [SymbolTable.findOperator, SymbolTable.addOperator] at h ⊢
    exact find?_append_of_some _ _ _ _ h
  · intro t op pos
    simp only [SymbolTable.findOperator, SymbolTable.findOperators]
    exact find?_eq_head_filter _ _
  · simp [SymbolTable.findOperator, SymbolTable.addOperator, c10Table,
      c10UserPlus, preludeTable, preludeOperators, pInfix, pPrefix,
      List.find?]
  · simp [resolveOperatorSeq, seqLoop, cloneOperand, applyPrefixOps,
      buildInfixTree, scanOps, SymbolTable.findOperator,
      SymbolTable.addOperator, preludeTable, preludeOperators, pInfix,
      pPrefix, List.find?, c10Table, c10UserPlus, c10Items]

/-- Witness for C10: preservation of the prelude `+` lookup under the user
redeclaration, applied at the concrete prelude table. -/
theorem claim_c10_first_overload_witness :
    preludeTable.findOperator "+" .Infix =
      some (pInfix "+" 70 .Left "i32" "i32" "i32") ∧
    (preludeTable.addOperator c10UserPlus).findOperator "+" .Infix =
      some (pInfix "+" 70 .Left "i32" "i32" "i32") := by
  have h : preludeTable.findOperator "+" .Infix =
      some (pInfix "+" 70 .Left "i32" "i32" "i32") := by
    simp [SymbolTable.findOperator, preludeTable, preludeOperators, pInfix,
      pPrefix, List.find?]
  exact ⟨h, claim_c10_first_overload.1 preludeTable c10UserPlus "+" .Infix _ h⟩

/-- A parser-shaped operator-sequence expression, `1 + 2`. -/
def c2Expr : Expr :=
  .opSeq
    [ .operandItem (.intLit "1" ⟨3, 9, 10⟩) ⟨3, 9, 10⟩,
      .operatorItem "+" ⟨3, 11, 12⟩,
      .operandItem (.intLit "2" ⟨3, 13, 14⟩) ⟨3, 13, 14⟩ ] ⟨3, 9, 10⟩

/-- Claim C2: over any operator table, resolving a parser-shaped expression
(one containing no binary/unary nodes yet, as the parser emits only
operator sequences) or statement leaves no operator-sequence node anywhere
in the output — every sequence, including those nested in call arguments and
parenthesized operands, is rewritten to binary/unary nodes or replaced by
the null expression when rejected. -/
theorem claim_c2_no_opseq :
    ∀ (tbl : SymbolTable),
      (∀ (e : Expr) (errs : List ResolveError), exprBinUnaryFree e = true →
         exprHasOpSeq (resolveExpr tbl e errs).1 = false) ∧
      (∀ (s : Stmt) (errs : List ResolveError), stmtBinUnaryFree s = true →
         stmtHasOpSeq (resolveStmt tbl s errs).1 = false) := by
  intro tbl
  exact ⟨(resolveExpr_noOpSeq tbl).1, (resolveStmt_noOpSeq tbl).1⟩

/-- Witness for C2: the parser-shaped `1 + 2` sequence, resolved under the
prelude table. -/
theorem claim_c2_no_opseq_witness :
    exprBinUnaryFree c2Expr = true ∧
    exprHasOpSeq (resolveExpr preludeTable c2Expr []).1 = false := by
  have h : exprBinUnaryFree c2Expr = true := by
    simp [c2Expr, exprBinUnaryFree, itemsBinUnaryFree, exprListBinUnaryFree]
  exact ⟨h, (claim_c2_no_opseq preludeTable).1 c2Expr [] h⟩

/-! ### Lexer keyword classification and the operator-declaration parser -/

/-- Token kinds (`include/token.hpp`). -/
inductive TokenKind where
  | EndOfFile
  | Integer
  | Float
  | StringTok
  | Identifier
  | Keyword
  | OperatorTok
  | Punctuation
  | Comment
  | ErrorTok
  deriving Repr, DecidableEq, Inhabited

/-- A lexed token (`include/token.hpp`); the `error_offset` field of error
tokens is omitted, the parser never reads it. -/
structure Token where
  kind : TokenKind
  lexeme : String
  line : Nat
  column : Nat
  endColumn : Nat
  deriving Repr, DecidableEq, Inhabited

/-- Modelled from the spec: the closed keyword set of the lexer. The current
`lexer.cpp` is not in the source tree (the lexer source present is an earlier
generation whose list still reads `assoc, left, right, none`), while the
in-tree `parser.cpp` and its passing tests require `assoc_left` and
`assoc_right` to lex as keyword tokens, so the set is taken from the spec. -/
def kKeywords : List String :=
  [ "let", "func", "if", "else", "return", "while",
    "true", "false", "operator", "prefix", "postfix", "infix",
    "prec", "assoc_left", "assoc_right" ]

/-- The classification step of `Lexer::lex_identifier_or_keyword`: an
identifier-shaped lexeme becomes a keyword token exactly when it is in the
keyword list. -/
def classifyIdentLexeme (lexeme : String) : TokenKind :=
  if kKeywords.contains lexeme then .Keyword else .Identifier

/-- A parse error (`ParseError`: message, line, column, end column). -/
structure ParseError where
  message : String
  line : Nat
  column : Nat
  endColumn : Nat
  deriving Repr, DecidableEq, Inhabited

/-- The comment-skipping index walk shared by `Parser::peek`,
`Parser::advance` and `Parser::at_end`. -/
def skipComments (tokens : List Token) (idx : Nat) : Nat :=
  if idx < tokens.length ∧ (tokens.getD idx default).kind = .Comment then
    skipComments tokens (idx + 1)
  else idx
termination_by tokens.length - idx
decreasing_by
  next h => exact Nat.sub_lt_sub_left h.1 (Nat.lt_succ_self idx)

/-- `Parser::peek`: first non-comment token at or after the cursor, the last
token (end of file) when past the end. -/
def peekT (tokens : List Token) (idx : Nat) : Token :=
  let j := skipComments tokens idx
  if j ≥ tokens.length then tokens.getLastD default else tokens.getD j default

/-- `Parser::advance`: consume and return the first non-comment token. -/
def advanceT (tokens : List Token) (idx : Nat) : Token × Nat :=
  let j := skipComments tokens idx
  if j < tokens.length then (tokens.getD j default, j + 1)
  else (tokens.getD (j - 1) default, j)

/-- `Parser::at_end`. -/
def atEndT (tokens : List Token) (idx : Nat) : Bool :=
  let j := skipComments tokens idx
  decide (j ≥ tokens.length ∨ (tokens.getD j default).kind = .EndOfFile)

/-- `Parser::check`. -/
def checkT (tokens : List Token) (idx : Nat) (k : TokenKind) : Bool :=
  if atEndT tokens idx then false else decide ((peekT tokens idx).kind = k)

/-- `Parser::error`: record a parse error at the current token. -/
def perror (tokens : List Token) (idx : Nat) (msg : String)
    (errs : List ParseError) : List ParseError :=
  let tok := peekT tokens idx
  errs ++ [⟨msg, tok.line, tok.column, tok.endColumn⟩]

/-- The backwards comment skip of `Parser::error_at_previous_end`. -/
def skipCommentsBack (tokens : List Token) : Nat → Nat
  | 0 => 0
  | i + 1 =>
    if (tokens.getD (i + 1) default).kind = .Comment then
      skipCommentsBack tokens i
    else i + 1

/-- `Parser::error_at_previous_end`: record a parse error at the end of the
previous non-comment token. -/
def perrorAtPreviousEnd (tokens : List Token) (idx : Nat) (msg : String)
    (errs : List ParseError) : List ParseError :=
  if idx = 0 then perror tokens idx msg errs
  else
    let prev := tokens.getD (skipCommentsBack tokens (idx - 1)) default
    errs ++ [⟨msg, prev.line, prev.endColumn, prev.endColumn + 1⟩]

/-- `Parser::token_loc`. -/
def tokenLoc (tok : Token) : SourceLocation :=
  ⟨tok.line, tok.column, tok.endColumn⟩

/-- `std::stoi` on the digit-only lexemes the lexer produces for integer
tokens. -/
def stoiDigits (s : String) : Int :=
  (s.toList.foldl (fun acc c => acc * 10 + (c.toNat - 48)) 0 : Nat)

/-- `Parser::parse_type_annotation`. -/
def parseTypeAnnotation (tokens : List Token) (idx : Nat)
    (errs : List ParseError) : Option TypeAnn × Nat × List ParseError :=
  if checkT tokens idx .Identifier = false then
    (none, idx, perror tokens idx "Expected type name" errs)
  else
    let tok := peekT tokens idx
    let (t, idx1) := advanceT tokens idx
    (some ⟨t.lexeme, tokenLoc tok⟩, idx1, errs)

/-- The parameter loop of `Parser::parse_operator_decl`. The `fuel` argument
is a modelling artifact bounding the iteration count: the C++ loop either
returns or consumes at least one token per iteration, so any fuel of at
least `tokens.length` is enough. -/
def parseOpParams (tokens : List Token) (fuel : Nat) (idx : Nat)
    (params : List Param) (errs : List ParseError) :
    Option (List Param) × Nat × List ParseError :=
  match fuel with
  | 0 => (none, idx, errs)
  | fuel + 1 =>
    if checkT tokens idx .Punctuation = true ∧ (peekT tokens idx).lexeme = ")" then
      (some params, idx, errs)
    else
      let step : Option Nat :=
        if params.isEmpty then some idx
        else if checkT tokens idx .Punctuation = true ∧
            (peekT tokens idx).lexeme = "," then
          some (advanceT tokens idx).2
        else none
      match step with
      | none =>
        (none, idx, perror tokens idx "Expected , between parameters" errs)
      | some idx1 =>
        if checkT tokens idx1 .Identifier = false then
          (none, idx1, perror tokens idx1 "Expected parameter name" errs)
        else
          let paramToken := peekT tokens idx1
          let (ptok, idx2) := advanceT tokens idx1
          if ¬(checkT tokens idx2 .Punctuation = true ∧
              (peekT tokens idx2).lexeme = ":") then
            (none, idx2, perror tokens idx2
              "Expected : after parameter name (generics unimplemented for operators)"
              errs)
          else
            let idx3 := (advanceT tokens idx2).2
            match parseTypeAnnotation tokens idx3 errs with
            | (none, idx4, errs1) =>
              (none, idx4, perror tokens idx4 "Expected type after :" errs1)
            | (some t, idx4, errs1) =>
              parseOpParams tokens fuel idx4
                (params ++ [⟨ptok.lexeme, some t,
                  ⟨paramToken.line, paramToken.column, 0⟩⟩]) errs1

/-- The trailing body-or-semicolon step of `Parser::parse_operator_decl`. The
block-bodied form delegates to `parse_block_stmt`, which is outside this
embedding; it is modelled as a failure without an error record and is never
exercised by the theorems, which use the declaration (semicolon) form. -/
def parseOperatorBodyEnd (tokens : List Token) (idx : Nat)
    (errs : List ParseError) (op : String) (position : OpPosition)
    (params : List Param) (returnType : TypeAnn) (precedence : Int)
    (assoc : Associativity) (startTok : Token) :
    Option Stmt × Nat × List ParseError :=
  if checkT tokens idx .Punctuation = true ∧ (peekT tokens idx).lexeme = "\x7b" then
    (none, idx, errs)
  else
    if checkT tokens idx .Punctuation = true ∧ (peekT tokens idx).lexeme = ";" then
      (some (.operatorDecl op position params (some returnType) precedence
        assoc none (tokenLoc startTok)), (advanceT tokens idx).2, errs)
    else
      (none, idx, perrorAtPreviousEnd tokens idx
        "Expected ; after operator declaration" errs)

/-- `Parser::parse_operator_decl` (entered with the cursor on the `operator`
keyword). -/
def parseOperatorDecl (tokens : List Token) (idx0 : Nat)
    (errs : List ParseError) : Option Stmt × Nat × List ParseError :=
  let startTok := peekT tokens idx0
  let idx := (advanceT tokens idx0).2
  if checkT tokens idx .Keyword = false then
    (none, idx, perror tokens idx
      "Expected operator position (prefix, infix, or postfix)" errs)
  else
    let (posTok, idx1) := advanceT tokens idx
    let positionOpt : Option OpPosition :=
      if posTok.lexeme = "prefix" then some .Prefix
      else if posTok.lexeme = "infix" then some .Infix
      else if posTok.lexeme = "postfix" then some .Postfix
      else none
    match positionOpt with
    | none =>
      (none, idx1, perror tokens idx1 "Expected prefix, infix, or postfix" errs)
    | some position =>
      if checkT tokens idx1 .OperatorTok = false then
        (none, idx1, perror tokens idx1 "Expected operator symbol" errs)
      else
        let (opTok, idx2) := advanceT tokens idx1
        if ¬(checkT tokens idx2 .Punctuation = true ∧
            (peekT tokens idx2).lexeme = "(") then
          (none, idx2, perror tokens idx2 "Expected ( after operator symbol" errs)
        else
          let idx3 := (advanceT tokens idx2).2
          match parseOpParams tokens tokens.length idx3 [] errs with
          | (none, idx4, errs1) => (none, idx4, errs1)
          | (some params, idx4, errs1) =>
            if position = .Prefix ∧ params.length ≠ 1 then
              (none, idx4, perror tokens idx4
                "Prefix operator must have exactly 1 parameter" errs1)
            else if position = .Infix ∧ params.length ≠ 2 then
              (none, idx4, perror tokens idx4
                "Infix operator must have exactly 2 parameters" errs1)
            else if position = .Postfix ∧ params.length ≠ 1 then
              (none, idx4, perror tokens idx4
                "Postfix operator must have exactly 1 parameter" errs1)
            else if ¬(checkT tokens idx4 .Punctuation = true ∧
                (peekT tokens idx4).lexeme = ")") then
              (none, idx4, perror tokens idx4 "Expected ) after parameters" errs1)
            else
              let idx5 := (advanceT tokens idx4).2
              if ¬(checkT tokens idx5 .Punctuation = true ∧
                  (peekT tokens idx5).lexeme = ":") then
                (none, idx5, perror tokens idx5
                  "Expected : after parameters (generics unimplemented for operators)"
                  errs1)
              else
                let idx6 := (advanceT tokens idx5).2
                match parseTypeAnnotation tokens idx6 errs1 with
                | (none, idx7, errs2) =>
                  (none, idx7, perror tokens idx7
                    "Expected return type after :" errs2)
                | (some returnType, idx7, errs2) =>
                  if position = .Infix then
                    if ¬(checkT tokens idx7 .Keyword = true ∧
                        (peekT tokens idx7).lexeme = "prec") then
                      (none, idx7, perror tokens idx7
                        "Expected prec keyword for infix operator" errs2)
                    else
                      let idx8 := (advanceT tokens idx7).2
                      if checkT tokens idx8 .Integer = false then
                        (none, idx8, perror tokens idx8
                          "Expected integer precedence value" errs2)
                      else
                        let (precTok, idx9) := advanceT tokens idx8
                        let precedence := stoiDigits precTok.lexeme
                        let assocStep : Associativity × Nat :=
                          if checkT tokens idx9 .Keyword = true then
                            if (peekT tokens idx9).lexeme = "assoc_left" then
                              (.Left, (advanceT tokens idx9).2)
                            else if (peekT tokens idx9).lexeme = "assoc_right" then
                              (.Right, (advanceT tokens idx9).2)
                            else (.Left, idx9)
                          else (.Left, idx9)
                        parseOperatorBodyEnd tokens assocStep.2 errs2 opTok.lexeme
                          position params returnType precedence assocStep.1
                          startTok
                  else
                    parseOperatorBodyEnd tokens idx7 errs2 opTok.lexeme position
                      params returnType 0 .Left startTok

/-- An identifier-shaped token classified by the keyword list, on line 1. -/
def identShapedTok (lex : String) (c e : Nat) : Token :=
  ⟨classifyIdentLexeme lex, lex, 1, c, e⟩

/-- The token stream of
`operator infix **(a: i32, b: i32): i32 prec 85 assoc_right;`. -/
def c4TokensRight : List Token :=
  [ identShapedTok "operator" 1 9,
    identShapedTok "infix" 10 15,
    ⟨.OperatorTok, "**", 1, 16, 18⟩,
    ⟨.Punctuation, "(", 1, 18, 19⟩,
    identShapedTok "a" 19 20,
    ⟨.Punctuation, ":", 1, 20, 21⟩,
    identShapedTok "i32" 22 25,
    ⟨.Punctuation, ",", 1, 25, 26⟩,
    identShapedTok "b" 27 28,
    ⟨.Punctuation, ":", 1, 28, 29⟩,
    identShapedTok "i32" 30 33,
    ⟨.Punctuation, ")", 1, 33, 34⟩,
    ⟨.Punctuation, ":", 1, 34, 35⟩,
    identShapedTok "i32" 36 39,
    identShapedTok "prec" 40 44,
    ⟨.Integer, "85", 1, 45, 47⟩,
    identShapedTok "assoc_right" 48 59,
    ⟨.Punctuation, ";", 1, 59, 60⟩,
    ⟨.EndOfFile, "", 1, 60, 60⟩ ]

/-- The same stream without the associativity clause. -/
def c4TokensLeft : List Token :=
  [ identShapedTok "operator" 1 9,
    identShapedTok "infix" 10 15,
    ⟨.OperatorTok, "**", 1, 16, 18⟩,
    ⟨.Punctuation, "(", 1, 18, 19⟩,
    identShapedTok "a" 19 20,
    ⟨.Punctuation, ":", 1, 20, 21⟩,
    identShapedTok "i32" 22 25,
    ⟨.Punctuation, ",", 1, 25, 26⟩,
    identShapedTok "b" 27 28,
    ⟨.Punctuation, ":", 1, 28, 29⟩,
    identShapedTok "i32" 30 33,
    ⟨.Punctuation, ")", 1, 33, 34⟩,
    ⟨.Punctuation, ":", 1, 34, 35⟩,
    identShapedTok "i32" 36 39,
    identShapedTok "prec" 40 44,
    ⟨.Integer, "85", 1, 45, 47⟩,
    ⟨.Punctuation, ";", 1, 48, 49⟩,
    ⟨.EndOfFile, "", 1, 49, 49⟩ ]

/-- The declaration parsed from `c4TokensRight`. -/
def c4DeclRight : Stmt :=
  .operatorDecl "**" .Infix
    [⟨"a", some ⟨"i32", ⟨1, 22, 25⟩⟩, ⟨1, 19, 0⟩⟩,
     ⟨"b", some ⟨"i32", ⟨1, 30, 33⟩⟩, ⟨1, 27, 0⟩⟩]
    (some ⟨"i32", ⟨1, 36, 39⟩⟩) 85 .Right none ⟨1, 1, 9⟩

/-- The declaration parsed from `c4TokensLeft`. -/
def c4DeclLeft : Stmt :=
  .operatorDecl "**" .Infix
    [⟨"a", some ⟨"i32", ⟨1, 22, 25⟩⟩, ⟨1, 19, 0⟩⟩,
     ⟨"b", some ⟨"i32", ⟨1, 30, 33⟩⟩, ⟨1, 27, 0⟩⟩]
    (some ⟨"i32", ⟨1, 36, 39⟩⟩) 85 .Left none ⟨1, 1, 9⟩

/-- Claim C4: an identifier-shaped lexeme is classified as a keyword exactly
when it is in the fixed fifteen-element keyword set (so `assoc_left` and
`assoc_right` lex as keywords), and the infix operator declaration
`operator infix **(a: i32, b: i32): i32 prec 85 assoc_right;` parses
successfully with right associativity recorded, while the same declaration
without the associativity clause records the default left associativity. -/
theorem claim_c4_keywords :
    (∀ lexeme : String,
       classifyIdentLexeme lexeme = .Keyword ↔ lexeme ∈ kKeywords) ∧
    parseOperatorDecl c4TokensRight 0 [] = (some c4DeclRight, 18, []) ∧
    parseOperatorDecl c4TokensLeft 0 [] = (some c4DeclLeft, 17, []) := by
  refine ⟨?_, ?_, ?_⟩
  · intro lexeme
    by_cases h : kKeywords.contains lexeme
    · simp only [classifyIdentLexeme, if_pos h]
      simpa using h
    · simp only [classifyIdentLexeme, if_neg h]
      constructor
      · intro hk
        cases hk
      · intro hm
        exact absurd (by simpa using hm) h
  · simp [parseOperatorDecl, parseOpParams, parseTypeAnnotation,
      parseOperatorBodyEnd, checkT, atEndT, peekT, advanceT, skipComments,
      perror, perrorAtPreviousEnd, skipCommentsBack, tokenLoc, stoiDigits,
      c4TokensRight, c4DeclRight, identShapedTok, classifyIdentLexeme,
      kKeywords]
  · simp [parseOperatorDecl, parseOpParams, parseTypeAnnotation,
      parseOperatorBodyEnd, checkT, atEndT, peekT, advanceT, skipComments,
      perror, perrorAtPreviousEnd, skipCommentsBack, tokenLoc, stoiDigits,
      c4TokensLeft, c4DeclLeft, identShapedTok, classifyIdentLexeme,
      kKeywords]

/-! ### Type checker -/

/-- `TypeChecker::lookup_variable_type`: search the scope stack from the
innermost scope (list head) outwards; the empty string means unknown. Each
C++ scope is a map from name to type; `add_variable_type` overwrites, which
the list model realizes by prepending so the newest binding is found
first. -/
def lookupVariableType (scopes : List (List (String × String)))
    (name : String) : String :=
  match scopes with
  | [] => ""
  | s :: rest =>
    match s.find? (fun p => decide (p.1 = name)) with
    | some p => p.2
    | none => lookupVariableType rest name

/-- The overload-matching test of the Binary case of
`TypeChecker::check_expr`: two parameters, each operand type either unknown
or equal to the corresponding parameter type. -/
def infixOverloadMatches (lt rt : String) (oi : OperatorInfo) : Bool :=
  decide (oi.signature.paramTypes.length = 2 ∧
    (lt = "" ∨ oi.signature.paramTypes.getD 0 "" = lt) ∧
    (rt = "" ∨ oi.signature.paramTypes.getD 1 "" = rt))

/-- The overload-matching test of the Unary case of
`TypeChecker::check_expr`. -/
def unaryOverloadMatches (t : String) (oi : OperatorInfo) : Bool :=
  decide (oi.signature.paramTypes.length = 1 ∧
    (t = "" ∨ oi.signature.paramTypes.getD 0 "" = t))

/-- The overload-matching test of the Call case of
`TypeChecker::check_expr`: same arity and each known argument type equal to
the parameter type. -/
def callOverloadMatches (argTypes : List String) (f : FunctionSignature) :
    Bool :=
  decide (f.paramTypes.length = argTypes.length ∧
    ∀ p ∈ argTypes.zip f.paramTypes, p.1 = "" ∨ p.2 = p.1)

mutual

/-- `TypeChecker::check_expr`, checking a freshly resolved tree (each node is
visited once, so the `inferred_type` memo field is never read back and is not
modelled). Returns the inferred type name (empty string when unknown) and
the error list. -/
def checkExpr (symbols : SymbolTable) (scopes : List (List (String × String))) :
    Expr → List ResolveError → String × List ResolveError
  | .null, errs => ("", errs)
  | .intLit _ _, errs => ("i32", errs)
  | .floatLit _ _, errs => ("f64", errs)
  | .stringLit _ _, errs => ("string", errs)
  | .boolLit _ _, errs => ("bool", errs)
  | .ident name _, errs => (lookupVariableType scopes name, errs)
  | .binary op l r loc, errs =>
    let (lt, errs1) := checkExpr symbols scopes l errs
    let (rt, errs2) := checkExpr symbols scopes r errs1
    match symbols.findOperators op .Infix with
    | [] =>
      ("", errs2 ++ [⟨"No infix operator " ++ op ++ " found",
        loc.line, loc.column⟩])
    | o0 :: rest =>
      match (o0 :: rest).find? (infixOverloadMatches lt rt) with
      | some oi => (oi.signature.returnType, errs2)
      | none => (o0.signature.returnType, errs2)
  | .unary op operand position loc, errs =>
    let (ot, errs1) := checkExpr symbols scopes operand errs
    match symbols.findOperators op position with
    | [] =>
      ("", errs1 ++ [⟨"No " ++
        (if position = .Prefix then "prefix" else "postfix") ++
        " operator " ++ op ++ " found", loc.line, loc.column⟩])
    | o0 :: rest =>
      match (o0 :: rest).find? (unaryOverloadMatches ot) with
      | some oi => (oi.signature.returnType, errs1)
      | none => (o0.signature.returnType, errs1)
  | .opSeq _ loc, errs =>
    ("", errs ++ [⟨"OperatorSeq should have been resolved before type checking",
      loc.line, loc.column⟩])
  | .call callee args loc, errs =>
    let (argTypes, errs1) := checkExprList symbols scopes args errs
    match callee with
    | .ident fname _ =>
      match symbols.findFunctions fname with
      | [] =>
        ("", errs1 ++ [⟨"Unknown function " ++ fname, loc.line, loc.column⟩])
      | f0 :: rest =>
        match (f0 :: rest).find? (callOverloadMatches argTypes) with
        | some f => (f.returnType, errs1)
        | none => (f0.returnType, errs1)
    | _ =>
      ("", errs1 ++ [⟨"Function call callee must be an identifier",
        loc.line, loc.column⟩])

/-- The argument-type loop of the Call case of `TypeChecker::check_expr`. -/
def checkExprList (symbols : SymbolTable)
    (scopes : List (List (String × String))) :
    List Expr → List ResolveError → List String × List ResolveError
  | [], errs => ([], errs)
  | a :: rest, errs =>
    let (t, errs1) := checkExpr symbols scopes a errs
    let (ts, errs2) := checkExprList symbols scopes rest errs1
    (t :: ts, errs2)

end

/-- Claim C5 (amended: when the operator has overloads and none matches, the
checker silently falls back to the first overload's return type — the
fallback is not conditioned on an operand type being unknown, and no
no-matching-overload diagnostic exists): for any binary expression whose
operator has at least one overload and whose operand types match no
overload, the result type is the first overload's return type and the error
list is exactly the one produced by checking the two operands. -/
theorem claim_c5_overload_fallback :
    ∀ (symbols : SymbolTable) (scopes : List (List (String × String)))
      (op : String) (l r : Expr) (loc : SourceLocation)
      (errs : List ResolveError) (lt rt : String)
      (errs1 errs2 : List ResolveError) (o0 : OperatorInfo)
      (rest : List OperatorInfo),
      checkExpr symbols scopes l errs = (lt, errs1) →
      checkExpr symbols scopes r errs1 = (rt, errs2) →
      symbols.findOperators op .Infix = o0 :: rest →
      (o0 :: rest).find? (infixOverloadMatches lt rt) = none →
      checkExpr symbols scopes (.binary op l r loc) errs =
        (o0.signature.returnType, errs2) := by
  intro symbols scopes op l r loc errs lt rt errs1 errs2 o0 rest hl hr hops hfind
  rw [checkExpr, hl]
  dsimp only
  rw [hr]
  dsimp only
  rw [hops]
  dsimp only
  rw [hfind]

/-- Claim C5, counterexample: `1 + true` has both operand types known (`i32`
and `bool`), the two prelude overloads of `+` are `(i32,i32)` and
`(f64,f64)` so none matches, yet the checker reports no error at all and
infers `i32` from the first overload — contradicting the claim that a known
mismatch is flagged. -/
theorem claim_c5_counterexample :
    checkExpr preludeTable [[]]
      (.binary "+" (.intLit "1" ⟨1, 1, 2⟩) (.boolLit true ⟨1, 5, 9⟩)
        ⟨1, 3, 4⟩) [] = ("i32", []) := by
  simp [checkExpr, infixOverloadMatches, SymbolTable.findOperators,
    preludeTable, preludeOperators, pInfix, pPrefix, List.filter, List.find?]

/-- Witness for C5: the fallback theorem applied to `2 + false` under the
prelude table. -/
theorem claim_c5_overload_fallback_witness :
    (checkExpr preludeTable [[]] (.intLit "2" ⟨2, 1, 2⟩) [] = ("i32", []) ∧
      checkExpr preludeTable [[]] (.boolLit false ⟨2, 5, 10⟩) [] =
        ("bool", []) ∧
      preludeTable.findOperators "+" .Infix =
        [pInfix "+" 70 .Left "i32" "i32" "i32",
         pInfix "+" 70 .Left "f64" "f64" "f64"] ∧
      [pInfix "+" 70 .Left "i32" "i32" "i32",
       pInfix "+" 70 .Left "f64" "f64" "f64"].find?
        (infixOverloadMatches "i32" "bool") = none) ∧
    checkExpr preludeTable [[]]
      (.binary "+" (.intLit "2" ⟨2, 1, 2⟩) (.boolLit false ⟨2, 5, 10⟩)
        ⟨2, 3, 4⟩) [] =
      ((pInfix "+" 70 .Left "i32" "i32" "i32").signature.returnType, []) := by
  have h1 : checkExpr preludeTable [[]] (.intLit "2" ⟨2, 1, 2⟩) [] =
      ("i32", []) := by simp [checkExpr]
  have h2 : checkExpr preludeTable [[]] (.boolLit false ⟨2, 5, 10⟩) [] =
      ("bool", []) := by simp [checkExpr]
  have h3 : preludeTable.findOperators "+" .Infix =
      [pInfix "+" 70 .Left "i32" "i32" "i32",
       pInfix "+" 70 .Left "f64" "f64" "f64"] := by
    simp [SymbolTable.findOperators, preludeTable, preludeOperators, pInfix,
      pPrefix, List.filter]
  have h4 : [pInfix "+" 70 .Left "i32" "i32" "i32",
      pInfix "+" 70 .Left "f64" "f64" "f64"].find?
        (infixOverloadMatches "i32" "bool") = none := by
    simp [infixOverloadMatches, pInfix, List.find?]
  exact ⟨⟨h1, h2, h3, h4⟩, claim_c5_overload_fallback preludeTable [[]] "+"
    (.intLit "2" ⟨2, 1, 2⟩) (.boolLit false ⟨2, 5, 10⟩) ⟨2, 3, 4⟩ [] "i32"
    "bool" [] [] (pInfix "+" 70 .Left "i32" "i32" "i32")
    [pInfix "+" 70 .Left "f64" "f64" "f64"] h1 h2 h3 h4⟩

/-! ### Symbol-table builder -/

/-- Scope kinds (`enum class ScopeKind`). -/
inductive ScopeKind where
  | Global
  | Function
  | Block
  deriving Repr, DecidableEq, Inhabited

/-- A variable binding (`struct VariableBinding`). -/
structure VariableBinding where
  name : String
  type : String
  line : Nat
  column : Nat
  origin : SymbolOrigin
  deriving Repr, DecidableEq, Inhabited

/-- One scope (`class Scope`): kind, description, and its variable map
(`variables_` in C++; named `vars` here since `variables` is reserved in
Lean). `Scope::add_variable` overwrites by name; the list model prepends so
the newest binding is found first. -/
structure BScope where
  kind : ScopeKind
  description : String
  vars : List VariableBinding
  deriving Repr, DecidableEq, Inhabited

/-- The symbol-table builder state: the scope stack of the
`ScopedSymbolTable` (head innermost; the global scope sits at the bottom),
its global function/operator tables, the builder error list, the block
counter, and the prelude flag. -/
structure Builder where
  scopes : List BScope
  symbols : SymbolTable
  errors : List ResolveError
  nextBlockNum : Nat
  collectingPrelude : Bool
  deriving Repr, DecidableEq, Inhabited

/-- `ScopedSymbolTable::push_scope`. -/
def pushScopeB (b : Builder) (kind : ScopeKind) (desc : String) : Builder :=
  { b with scopes := ⟨kind, desc, []⟩ :: b.scopes }

/-- `ScopedSymbolTable::pop_scope`: pops only when a parent scope exists. -/
def popScopeB (b : Builder) : Builder :=
  match b.scopes with
  | _ :: rest => if rest.isEmpty then b else { b with scopes := rest }
  | [] => b

/-- `ScopedSymbolTable::add_variable` into the current scope. -/
def addVariableB (b : Builder) (v : VariableBinding) : Builder :=
  match b.scopes with
  | s :: rest => { b with scopes := { s with vars := v :: s.vars } :: rest }
  | [] => b

/-- `Scope::has_variable_local` on the current scope. -/
def hasVariableLocal (b : Builder) (name : String) : Bool :=
  (((b.scopes.headD ⟨.Global, "", []⟩).vars.find?
    (fun v => decide (v.name = name)))).isSome

/-- The parameter-type extraction loop of
`SymbolTableBuilder::process_func_decl`: collect the annotated type names,
stopping with an error at the first unannotated parameter. -/
def funcParamTypes : List Param → Except ResolveError (List String)
  | [] => .ok []
  | p :: rest =>
    match p.type with
    | some t => (funcParamTypes rest).map (fun ts => t.name :: ts)
    | none => .error ⟨"Function parameter " ++ p.name ++
        " requires explicit type (generics unimplemented)",
        p.loc.line, p.loc.column⟩

/-- The parameter-type extraction loop of
`SymbolTableBuilder::process_operator_decl`. -/
def opParamTypes : List Param → Except ResolveError (List String)
  | [] => .ok []
  | p :: rest =>
    match p.type with
    | some t => (opParamTypes rest).map (fun ts => t.name :: ts)
    | none => .error ⟨"Operator parameter requires explicit type (generics unimplemented)",
        p.loc.line, p.loc.column⟩

/-- `SymbolTableBuilder::process_operator_decl`: no scope check — the
operator is added to the global operator table from whatever scope is
current. The declaration body is ignored entirely. -/
def processOperatorDecl (b : Builder) (op : String) (pos : OpPosition)
    (ps : List Param) (rt : Option TypeAnn) (prec : Int)
    (assoc : Associativity) (loc : SourceLocation) : Builder :=
  let origin := if b.collectingPrelude then SymbolOrigin.Prelude else .User
  match opParamTypes ps with
  | .error e => { b with errors := b.errors ++ [e] }
  | .ok paramTypes =>
    match rt with
    | none =>
      { b with errors := b.errors ++ [⟨"Operator must have explicit return type",
          loc.line, loc.column⟩] }
    | some rta =>
      { b with symbols :=
          b.symbols.addOperator ⟨op, pos, prec, assoc, ⟨paramTypes, rta.name⟩, origin⟩ }

/-- `SymbolTableBuilder::process_let`. -/
def processLet (b : Builder) (name : String) (t : Option TypeAnn)
    (loc : SourceLocation) : Builder :=
  let origin := if b.collectingPrelude then SymbolOrigin.Prelude else .User
  if hasVariableLocal b name then
    { b with errors := b.errors ++ [⟨"Variable " ++ name ++
        " already defined in current scope", loc.line, loc.column⟩] }
  else
    let typeName := match t with | some ta => ta.name | none => ""
    addVariableB b ⟨name, typeName, loc.line, loc.column, origin⟩

mutual

/-- `SymbolTableBuilder::process_stmt`: dispatch on the statement kind;
Return and Expr statements declare nothing. -/
def processStmt (b : Builder) : Stmt → Builder
  | .funcStmt n ps rt body loc => processFuncDecl b n ps rt body loc
  | .operatorDecl op pos ps rt prec assoc _ loc =>
    processOperatorDecl b op pos ps rt prec assoc loc
  | .letStmt n t _ loc => processLet b n t loc
  | .block stmts loc =>
    processBlock { b with nextBlockNum := b.nextBlockNum + 1 } stmts loc
      b.nextBlockNum
  | .ifStmt _ thenB elseB _ =>
    let b1 := processStmt b thenB
    match elseB with
    | some e => processStmt b1 e
    | none => b1
  | .whileStmt _ body _ => processStmt b body
  | .returnStmt _ _ => b
  | .exprStmt _ _ => b
termination_by s => (sizeOf s, 0)

/-- `SymbolTableBuilder::process_func_decl`: a function declared in a
non-global scope is rejected and not added; otherwise the signature goes to
the global function table and a body is processed in a fresh function scope
holding the parameters (the post-extraction half lives in
`processFuncDeclTyped`). -/
def processFuncDecl (b : Builder) (n : String) (ps : List Param)
    (rt : Option TypeAnn) (body : Option Stmt) (loc : SourceLocation) :
    Builder :=
  let origin := if b.collectingPrelude then SymbolOrigin.Prelude else .User
  if (b.scopes.headD ⟨.Global, "", []⟩).kind ≠ .Global then
    { b with errors := b.errors ++
        [⟨"Nested function definitions are not yet supported (closures unimplemented)",
          loc.line, loc.column⟩] }
  else
    processFuncDeclTyped b n ps rt body origin (funcParamTypes ps)
termination_by (sizeOf body, 1)

/-- The second half of `SymbolTableBuilder::process_func_decl`, from the
parameter-type extraction result on. -/
def processFuncDeclTyped (b : Builder) (n : String) (ps : List Param)
    (rt : Option TypeAnn) (body : Option Stmt) (origin : SymbolOrigin) :
    Except ResolveError (List String) → Builder
  | .error e => { b with errors := b.errors ++ [e] }
  | .ok paramTypes =>
    let returnType := match rt with | some t => t.name | none => ""
    let b1 := { b with symbols :=
        b.symbols.addFunction ⟨n, paramTypes, returnType, body.isNone, origin⟩ }
    match body with
    | none => b1
    | some bodyStmt =>
      let b2 := pushScopeB b1 .Function ("function " ++ n)
      let b3 := ps.foldl (fun acc p =>
        addVariableB acc ⟨p.name,
          (match p.type with | some t => t.name | none => ""),
          p.loc.line, p.loc.column, origin⟩) b2
      popScopeB (processStmt b3 bodyStmt)
termination_by (sizeOf body, 0)

/-- `SymbolTableBuilder::process_block`. -/
def processBlock (b : Builder) (stmts : List Stmt) (loc : SourceLocation)
    (blockNum : Nat) : Builder :=
  let b1 := pushScopeB b .Block
    ("block #" ++ toString blockNum ++ " at line " ++ toString loc.line)
  popScopeB (processStmtsB b1 stmts)
termination_by (sizeOf stmts, 1)

/-- The statement loop of `SymbolTableBuilder::process_block` and
`SymbolTableBuilder::collect`. -/
def processStmtsB (b : Builder) : List Stmt → Builder
  | [] => b
  | s :: rest => processStmtsB (processStmt b s) rest
termination_by l => (sizeOf l, 0)

end

/-- The builder state right after construction: one global scope, empty
tables, processing user code. -/
def c6InitBuilder : Builder :=
  ⟨[⟨.Global, "global", []⟩], ⟨[], []⟩, [], 0, false⟩

/-- An operator declaration statement `operator infix ++(a: i32, b: i32): i32
prec 85;` as the parser produces it. -/
def c6OpDecl : Stmt :=
  .operatorDecl "++" .Infix
    [⟨"a", some ⟨"i32", ⟨4, 15, 18⟩⟩, ⟨4, 12, 0⟩⟩,
     ⟨"b", some ⟨"i32", ⟨4, 23, 26⟩⟩, ⟨4, 20, 0⟩⟩]
    (some ⟨"i32", ⟨4, 29, 32⟩⟩) 85 .Left none ⟨4, 3, 11⟩

/-- Claim C6, counterexample: an operator declaration nested inside a block —
a non-global scope — is accepted without any error and its operator is added
to the global operator table, contradicting the claim that operator
declarations in non-global scopes are rejected and not added. -/
theorem claim_c6_counterexample :
    (processStmt c6InitBuilder (.block [c6OpDecl] ⟨3, 10, 11⟩)).symbols.operators =
      [⟨"++", .Infix, 85, .Left, ⟨["i32", "i32"], "i32"⟩, .User⟩] ∧
    (processStmt c6InitBuilder (.block [c6OpDecl] ⟨3, 10, 11⟩)).errors = [] := by
  constructor
  · simp [processStmt, processBlock, processStmtsB, processOperatorDecl,
      opParamTypes, Except.map, pushScopeB, popScopeB,
      SymbolTable.addOperator, c6InitBuilder, c6OpDecl]
  · simp [processStmt, processBlock, processStmtsB, processOperatorDecl,
      opParamTypes, Except.map, pushScopeB, popScopeB,
      SymbolTable.addOperator, c6InitBuilder, c6OpDecl]

/-- Claim C6 (amended: only FUNCTION declarations are restricted to the
global scope — a function declaration seen in a non-global scope is rejected
with the closures-unimplemented error and nothing is added — while operator
declarations are collected into the global operator table from any scope
whatsoever): the two general behaviors of the builder. -/
theorem claim_c6_scope_rules :
    (∀ (b : Builder) (n : String) (ps : List Param) (rt : Option TypeAnn)
       (body : Option Stmt) (loc : SourceLocation),
       (b.scopes.headD ⟨.Global, "", []⟩).kind ≠ .Global →
       processFuncDecl b n ps rt body loc =
         { b with errors := b.errors ++
             [⟨"Nested function definitions are not yet supported (closures unimplemented)",
               loc.line, loc.column⟩] }) ∧
    (∀ (b : Builder) (op : String) (pos : OpPosition) (ps : List Param)
       (rta : TypeAnn) (prec : Int) (assoc : Associativity)
       (loc : SourceLocation) (ts : List String),
       opParamTypes ps = .ok ts →
       processOperatorDecl b op pos ps (some rta) prec assoc loc =
         { b with symbols :=
             b.symbols.addOperator ⟨op, pos, prec, assoc, ⟨ts, rta.name⟩, if b.collectingPrelude then .Prelude else .User⟩ }) := by
  constructor
  · intro b n ps rt body loc h
    rw [processFuncDecl, if_pos h]
  · intro b op pos ps rta prec assoc loc ts hps
    rw [processOperatorDecl]
    dsimp only
    rw [hps]

/-- A builder whose current scope is a function scope. -/
def c6FuncBuilder : Builder :=
  ⟨[⟨.Function, "function f", []⟩, ⟨.Global, "global", []⟩],
   ⟨[], []⟩, [], 0, false⟩

/-- Witness for C6: the rejection of a nested function declaration and the
unconditional collection of an operator declaration, both inside a function
scope. -/
theorem claim_c6_scope_rules_witness :
    ((c6FuncBuilder.scopes.headD ⟨.Global, "", []⟩).kind ≠ .Global ∧
      opParamTypes [⟨"a", some ⟨"i32", ⟨4, 15, 18⟩⟩, ⟨4, 12, 0⟩⟩] =
        .ok ["i32"]) ∧
    processFuncDecl c6FuncBuilder "g" [] none none ⟨5, 3, 4⟩ =
      { c6FuncBuilder with errors := c6FuncBuilder.errors ++
          [⟨"Nested function definitions are not yet supported (closures unimplemented)",
            5, 3⟩] } ∧
    processOperatorDecl c6FuncBuilder "~~" .Prefix
      [⟨"a", some ⟨"i32", ⟨4, 15, 18⟩⟩, ⟨4, 12, 0⟩⟩]
      (some ⟨"i32", ⟨4, 29, 32⟩⟩) 0 .Left ⟨4, 3, 11⟩ =
      { c6FuncBuilder with symbols :=
          c6FuncBuilder.symbols.addOperator ⟨"~~", .Prefix, 0, .Left, ⟨["i32"], "i32"⟩, if c6FuncBuilder.collectingPrelude then .Prelude else .User⟩ } := by
  have h1 : (c6FuncBuilder.scopes.headD ⟨.Global, "", []⟩).kind ≠ .Global := by
    decide
  have h2 : opParamTypes [⟨"a", some ⟨"i32", ⟨4, 15, 18⟩⟩, ⟨4, 12, 0⟩⟩] =
      .ok ["i32"] := by simp [opParamTypes, Except.map]
  refine ⟨⟨h1, h2⟩, ?_, ?_⟩
  · exact claim_c6_scope_rules.1 c6FuncBuilder "g" [] none none ⟨5, 3, 4⟩ h1
  · exact claim_c6_scope_rules.2 c6FuncBuilder "~~" .Prefix
      [⟨"a", some ⟨"i32", ⟨4, 15, 18⟩⟩, ⟨4, 12, 0⟩⟩] ⟨"i32", ⟨4, 29, 32⟩⟩ 0
      .Left ⟨4, 3, 11⟩ ["i32"] h2

/-! ### Code generator: straight-line lowering of binary expressions -/

/-- An SSA value of the generated IR: an integer constant of a given bit
width, or a virtual register. -/
inductive IRValue where
  | constInt (width : Nat) (value : Int)
  | reg (n : Nat)
  deriving Repr, DecidableEq, Inhabited

/-- One emitted IR instruction: a load from a variable slot, a store to a
variable slot, or a single two-operand instruction (`CreateAdd`,
`CreateAnd`, `CreateOr`, ... keyed by the operator symbol). `gen_binary_expr`
emits every one of these into the current basic block; none of its builtin
paths creates a basic block, a conditional branch or a phi. -/
inductive Instr where
  | load (dst : Nat) (var : String)
  | store (var : String) (v : IRValue)
  | binOp (dst : Nat) (op : String) (l r : IRValue)
  deriving Repr, DecidableEq, Inhabited

/-- Code-generation state: the instruction trace of the current block, the
next virtual register, the names with an alloca in scope, and the error
list. -/
structure CGState where
  instrs : List Instr
  nextReg : Nat
  vars : List String
  errors : List ResolveError
  deriving Repr, DecidableEq, Inhabited

/-- The assignment operators special-cased at the top of
`CodeGen::gen_binary_expr`. -/
def assignOps : List String := ["=", "+=", "-=", "*=", "/=", "%="]

/-- The builtin binary operators lowered to a single instruction by
`CodeGen::gen_binary_expr` — including `&&` (`CreateAnd`) and `||`
(`CreateOr`). -/
def builtinBinOps : List String :=
  ["+", "-", "*", "/", "%", "**", "&", "|", "^", "<<", ">>",
   "==", "!=", "<", "<=", ">", ">=", "&&", "||"]

mutual

/-- `CodeGen::gen_expr` restricted to the paths the lowering theorems
exercise: integer/boolean literals, identifier loads, the assignment path
and the builtin two-operand path of `gen_binary_expr`. The user-operator
call path and the remaining expression kinds are not modelled (the mangling
of user operators is treated separately below). -/
def genExpr (st : CGState) : Expr → Option IRValue × CGState
  | .intLit v _ => (some (.constInt 32 (stoiDigits v)), st)
  | .boolLit b _ => (some (.constInt 1 (if b then 1 else 0)), st)
  | .ident n loc =>
    if n ∈ st.vars then
      (some (.reg st.nextReg),
       { st with instrs := st.instrs ++ [.load st.nextReg n],
                 nextReg := st.nextReg + 1 })
    else
      (none, { st with errors := st.errors ++
        [⟨"Undefined variable: " ++ n, loc.line, loc.column⟩] })
  | .binary op l r loc =>
    if op ∈ assignOps then
      genAssignExpr st op l r loc
    else
      match genExpr st l with
      | (none, st1) => (none, st1)
      | (some lv, st1) =>
        match genExpr st1 r with
        | (none, st2) => (none, st2)
        | (some rv, st2) =>
          if op ∈ builtinBinOps then
            (some (.reg st2.nextReg),
             { st2 with instrs := st2.instrs ++ [.binOp st2.nextReg op lv rv],
                        nextReg := st2.nextReg + 1 })
          else
            (none, { st2 with errors := st2.errors ++
              [⟨"Unknown binary operator: " ++ op, loc.line, loc.column⟩] })
  | e =>
    (none, { st with errors := st.errors ++
      [⟨"expression kind not modelled", (exprLoc e).line, (exprLoc e).column⟩] })
termination_by e => (sizeOf e, 0)

/-- The assignment path at the top of `CodeGen::gen_binary_expr`: the left
side must be an in-scope variable; the right side is generated, combined with
a load of the current value for compound operators, and stored back. -/
def genAssignExpr (st : CGState) (op : String) (lhs r : Expr)
    (loc : SourceLocation) : Option IRValue × CGState :=
  match lhs with
  | .ident name _ =>
    if name ∈ st.vars then
      match genExpr st r with
      | (none, st1) => (none, st1)
      | (some rightVal, st1) =>
        if op = "=" then
          (some rightVal,
           { st1 with instrs := st1.instrs ++ [.store name rightVal] })
        else
          (some (.reg (st1.nextReg + 1)),
           { st1 with
             instrs := st1.instrs ++ [.load st1.nextReg name,
               .binOp (st1.nextReg + 1) op (.reg st1.nextReg) rightVal,
               .store name (.reg (st1.nextReg + 1))],
             nextReg := st1.nextReg + 2 })
    else
      (none, { st with errors := st.errors ++
        [⟨"Undefined variable: " ++ name, loc.line, loc.column⟩] })
  | _ =>
    (none, { st with errors := st.errors ++
      [⟨"Left side of assignment must be a variable", loc.line, loc.column⟩] })
termination_by (sizeOf r, 1)

end

/-- The initial state for the `a && (x = 1)` lowering: `a` and `x` have
allocas, nothing emitted yet. -/
def c8State : CGState := ⟨[], 0, ["a", "x"], []⟩

/-- The resolved expression `a && (x = 1)`. -/
def c8Expr : Expr :=
  .binary "&&" (.ident "a" ⟨1, 1, 2⟩)
    (.binary "=" (.ident "x" ⟨1, 7, 8⟩) (.intLit "1" ⟨1, 11, 12⟩) ⟨1, 9, 10⟩)
    ⟨1, 3, 5⟩

/-- Claim C8 (the code does NOT short-circuit): for every `&&` or `||`
expression, `gen_binary_expr` first generates the left operand, then
unconditionally generates the right operand into the same straight-line
trace, and then emits a single and/or instruction — the right operand's
instructions, including its side effects, are always emitted and always
executed. Concretely, lowering `a && (x = 1)` emits the store to `x`
unconditionally: the trace is load `a`, store 1 to `x`, and. -/
theorem claim_c8_no_short_circuit :
    (∀ (op : String) (st : CGState) (l r : Expr) (loc : SourceLocation)
       (lv rv : IRValue) (st1 st2 : CGState),
       op = "&&" ∨ op = "||" →
       genExpr st l = (some lv, st1) →
       genExpr st1 r = (some rv, st2) →
       genExpr st (.binary op l r loc) =
         (some (.reg st2.nextReg),
          { st2 with instrs := st2.instrs ++ [.binOp st2.nextReg op lv rv],
                     nextReg := st2.nextReg + 1 })) ∧
    genExpr c8State c8Expr =
      (some (.reg 1),
       ⟨[.load 0 "a", .store "x" (.constInt 32 1),
         .binOp 1 "&&" (.reg 0) (.constInt 32 1)], 2, ["a", "x"], []⟩) ∧
    .store "x" (.constInt 32 1) ∈
      (genExpr c8State c8Expr).2.instrs := by
  refine ⟨?_, ?_, ?_⟩
  · intro op st l r loc lv rv st1 st2 hop hl hr
    have hna : ¬ op ∈ assignOps := by
      rcases hop with h | h <;> subst h <;> decide
    have hb : op ∈ builtinBinOps := by
      rcases hop with h | h <;> subst h <;> decide
    rw [genExpr]
    rw [if_neg hna, hl]
    dsimp only
    rw [hr]
    dsimp only
    rw [if_pos hb]
  · simp [genExpr, genAssignExpr, c8State, c8Expr, assignOps, builtinBinOps,
      stoiDigits]
  · simp [genExpr, genAssignExpr, c8State, c8Expr, assignOps, builtinBinOps,
      stoiDigits]

/-- Witness for C8: the general part applied to `a && (x = 1)` itself. -/
theorem claim_c8_no_short_circuit_witness :
    (("&&" = "&&" ∨ "&&" = "||") ∧
      genExpr c8State (.ident "a" ⟨1, 1, 2⟩) =
        (some (.reg 0), ⟨[.load 0 "a"], 1, ["a", "x"], []⟩) ∧
      genExpr ⟨[.load 0 "a"], 1, ["a", "x"], []⟩
        (.binary "=" (.ident "x" ⟨1, 7, 8⟩) (.intLit "1" ⟨1, 11, 12⟩)
          ⟨1, 9, 10⟩) =
        (some (.constInt 32 1),
         ⟨[.load 0 "a", .store "x" (.constInt 32 1)], 1, ["a", "x"], []⟩)) ∧
    genExpr c8State c8Expr =
      (some (.reg 1),
       { (⟨[.load 0 "a", .store "x" (.constInt 32 1)], 1, ["a", "x"], []⟩ : CGState) with
         instrs := [.load 0 "a", .store "x" (.constInt 32 1)] ++
           [.binOp 1 "&&" (.reg 0) (.constInt 32 1)],
         nextReg := 1 + 1 }) := by
  have hop : ("&&" : String) = "&&" ∨ ("&&" : String) = "||" := Or.inl rfl
  have hl : genExpr c8State (.ident "a" ⟨1, 1, 2⟩) =
      (some (.reg 0), ⟨[.load 0 "a"], 1, ["a", "x"], []⟩) := by
    simp [genExpr, c8State]
  have hr : genExpr ⟨[.load 0 "a"], 1, ["a", "x"], []⟩
      (.binary "=" (.ident "x" ⟨1, 7, 8⟩) (.intLit "1" ⟨1, 11, 12⟩)
        ⟨1, 9, 10⟩) =
      (some (.constInt 32 1),
       ⟨[.load 0 "a", .store "x" (.constInt 32 1)], 1, ["a", "x"], []⟩) := by
    simp [genExpr, genAssignExpr, assignOps, stoiDigits]
  exact ⟨⟨hop, hl, hr⟩, claim_c8_no_short_circuit.1 "&&" c8State
    (.ident "a" ⟨1, 1, 2⟩)
    (.binary "=" (.ident "x" ⟨1, 7, 8⟩) (.intLit "1" ⟨1, 11, 12⟩) ⟨1, 9, 10⟩)
    ⟨1, 3, 5⟩ (.reg 0) (.constInt 32 1) ⟨[.load 0 "a"], 1, ["a", "x"], []⟩
    ⟨[.load 0 "a", .store "x" (.constInt 32 1)], 1, ["a", "x"], []⟩ hop hl hr⟩

/-! ### Code generator: operator name mangling -/

/-- The mangling loop of `CodeGen::generate`: the operator symbol followed by
a dollar-separated list of its parameter type names. -/
def mangleOperator (op : String) (paramTypes : List String) : String :=
  paramTypes.foldl (fun acc t => acc ++ "$" ++ t) op

/-- The mangled names under which `CodeGen::generate` declares every
operator of the symbol table as an external function. -/
def declaredOperatorNames (tbl : SymbolTable) : List String :=
  tbl.operators.map (fun oi => mangleOperator oi.op oi.signature.paramTypes)

/-- The mangling loop of `CodeGen::gen_operator_stmt`, recomputed from the
declaration parameters (skipping unannotated ones): the function into which
the operator body is emitted. -/
def genOperatorStmtMangledName (op : String) (ps : List Param) : String :=
  ps.foldl (fun acc p =>
    match p.type with
    | some t => acc ++ "$" ++ t.name
    | none => acc) op

/-- The user-operator call-site selection of `CodeGen::gen_binary_expr`: the
first overload whose two parameter types equal the operand types selects the
call target `OP$LEFTTYPE$RIGHTTYPE`. -/
def selectUserOpMangled (tbl : SymbolTable) (op leftType rightType : String) :
    Option String :=
  match (tbl.findOperators op .Infix).find? (fun oi =>
    decide (oi.signature.paramTypes.length = 2 ∧
      oi.signature.paramTypes.getD 0 "" = leftType ∧
      oi.signature.paramTypes.getD 1 "" = rightType)) with
  | some _ => some (op ++ "$" ++ leftType ++ "$" ++ rightType)
  | none => none

/-- The two `***` overloads of the overloading scenario. -/
def c9Table : SymbolTable :=
  (preludeTable.addOperator
    ⟨"***", .Infix, 85, .Left, ⟨["i32", "i32"], "i32"⟩, .User⟩).addOperator
    ⟨"***", .Infix, 85, .Left, ⟨["f64", "f64"], "f64"⟩, .User⟩

/-- Claim C9: every operator of the symbol table is declared under its
mangled name `OP$T1$T2...`; the body of a fully annotated operator
declaration is emitted into exactly the function with the same mangled name
as its table entry; and the two `***` overloads on `(i32,i32)` and
`(f64,f64)` yield two distinct mangled symbols, each selected at a call
site by the operands exactly when the operand types match it. -/
theorem claim_c9_mangling :
    (∀ (tbl : SymbolTable) (oi : OperatorInfo), oi ∈ tbl.operators →
       mangleOperator oi.op oi.signature.paramTypes ∈
         declaredOperatorNames tbl) ∧
    (∀ (op : String) (ps : List Param) (ts : List String),
       opParamTypes ps = .ok ts →
       genOperatorStmtMangledName op ps = mangleOperator op ts) ∧
    (mangleOperator "***" ["i32", "i32"] = "***$i32$i32" ∧
      mangleOperator "***" ["f64", "f64"] = "***$f64$f64" ∧
      mangleOperator "***" ["i32", "i32"] ≠ mangleOperator "***" ["f64", "f64"] ∧
      declaredOperatorNames c9Table =
        declaredOperatorNames preludeTable ++ ["***$i32$i32", "***$f64$f64"] ∧
      selectUserOpMangled c9Table "***" "i32" "i32" = some "***$i32$i32" ∧
      selectUserOpMangled c9Table "***" "f64" "f64" = some "***$f64$f64") := by
  refine ⟨?_, ?_, ?_, ?_, ?_, ?_, ?_, ?_⟩
  · intro tbl oi hm
    exact List.mem_map_of_mem _ hm
  · intro op ps
    induction ps generalizing op with
    | nil =>
      intro ts h
      simp only [opParamTypes] at h
      cases h
      rfl
    | cons p rest ih =>
      intro ts h
      simp only [opParamTypes] at h
      match hp : p.type with
      | none => rw [hp] at h; cases h
      | some t =>
        rw [hp] at h
        match hrest : opParamTypes rest with
        | .error e => rw [hrest] at h; simp [Except.map] at h
        | .ok ts0 =>
          rw [hrest] at h
          simp only [Except.map] at h
          cases h
          simp only [genOperatorStmtMangledName, mangleOperator, List.foldl,
            hp]
          exact ih (op ++ "$" ++ t.name) ts0 hrest
  · decide
  · decide
  · decide
  · simp [declaredOperatorNames, c9Table, SymbolTable.addOperator,
      preludeTable, mangleOperator]
  · simp [selectUserOpMangled, SymbolTable.findOperators, c9Table,
      SymbolTable.addOperator, preludeTable, preludeOperators, pInfix,
      pPrefix, List.filter, List.find?]
  · simp [selectUserOpMangled, SymbolTable.findOperators, c9Table,
      SymbolTable.addOperator, preludeTable, preludeOperators, pInfix,
      pPrefix, List.filter, List.find?]

/-- Witness for C9: the membership and body-emission parts applied to the
first `***` overload of the two-overload table. -/
theorem claim_c9_mangling_witness :
    ((⟨"***", .Infix, 85, .Left, ⟨["i32", "i32"], "i32"⟩, .User⟩ : OperatorInfo) ∈
        c9Table.operators ∧
      opParamTypes
        [⟨"a", some ⟨"i32", ⟨7, 15, 18⟩⟩, ⟨7, 12, 0⟩⟩,
         ⟨"b", some ⟨"i32", ⟨7, 23, 26⟩⟩, ⟨7, 20, 0⟩⟩] = .ok ["i32", "i32"]) ∧
    mangleOperator "***" ["i32", "i32"] ∈ declaredOperatorNames c9Table ∧
    genOperatorStmtMangledName "***"
      [⟨"a", some ⟨"i32", ⟨7, 15, 18⟩⟩, ⟨7, 12, 0⟩⟩,
       ⟨"b", some ⟨"i32", ⟨7, 23, 26⟩⟩, ⟨7, 20, 0⟩⟩] =
      mangleOperator "***" ["i32", "i32"] := by
  have h1 : (⟨"***", .Infix, 85, .Left, ⟨["i32", "i32"], "i32"⟩, .User⟩ : OperatorInfo) ∈
      c9Table.operators := by
    simp [c9Table, SymbolTable.addOperator, preludeTable]
  have h2 : opParamTypes
      [⟨"a", some ⟨"i32", ⟨7, 15, 18⟩⟩, ⟨7, 12, 0⟩⟩,
       ⟨"b", some ⟨"i32", ⟨7, 23, 26⟩⟩, ⟨7, 20, 0⟩⟩] = .ok ["i32", "i32"] := by
    simp [opParamTypes, Except.map]
  refine ⟨⟨h1, h2⟩, ?_, ?_⟩
  · exact claim_c9_mangling.1 c9Table
      ⟨"***", .Infix, 85, .Left, ⟨["i32", "i32"], "i32"⟩, .User⟩ h1
  · exact claim_c9_mangling.2.1 "***"
      [⟨"a", some ⟨"i32", ⟨7, 15, 18⟩⟩, ⟨7, 12, 0⟩⟩,
       ⟨"b", some ⟨"i32", ⟨7, 23, 26⟩⟩, ⟨7, 20, 0⟩⟩] ["i32", "i32"] h2

end Pecco
